import Mathlib

/-!
Shallow embedding of the configmirror-operator reconciliation engine
(internal/controller/configmirror_controller.go, api/v1alpha1/configmirror_types.go,
internal/database/postgres.go) and proofs about it.

Conventions of the embedding:
* Kubernetes objects live in a flat list (the cluster); an object is keyed by
  (namespace, name).  Go's `namespace` field is called `nspace` here because
  `namespace` is a Lean keyword.
* Go maps (labels, annotations, data, binaryData) are association lists whose
  observable content is first-match lookup.
* Wall-clock time (`metav1.Now()`) is an explicit `Nat` parameter `now`.
* Fallible client / database calls are driven by an explicit `Faults` record:
  a `true` entry makes the corresponding call return an error without changing
  state, exactly as a failed API round-trip leaves the store unchanged.
-/

namespace ConfigMirrorOp

/-- Association-list map, standing in for a Go `map[string]string`. -/
abbrev KVMap := List (String × String)

/-- First-match lookup in a `KVMap` (Go map read: at most one value per key). -/
def getKV (m : KVMap) (k : String) : Option String :=
  match m with
  | [] => none
  | (k', v) :: rest => if k' = k then some v else getKV rest k

/-- Drop every binding of key `k` (helper for the Go map write). -/
def removeKey (m : KVMap) (k : String) : KVMap :=
  match m with
  | [] => []
  | (k', v) :: rest => if k' = k then removeKey rest k else (k', v) :: removeKey rest k

/-- Go map write `m[k] = v`: the new binding shadows (and here replaces) any old one. -/
def setKV (m : KVMap) (k v : String) : KVMap :=
  (k, v) :: removeKey m k

/-- `corev1.ConfigMap`: the metadata fields the controller reads or writes
(name, namespace, labels, annotations) plus `data` and `binaryData`. -/
structure ConfigMap where
  name : String
  nspace : String
  labels : KVMap
  annotations : KVMap
  data : KVMap
  binaryData : KVMap
deriving DecidableEq, Repr

/-- `metav1.LabelSelectorRequirement` (operator kept as its Go string form). -/
structure LabelSelectorRequirement where
  key : String
  op : String
  values : List String
deriving DecidableEq, Repr

/-- `metav1.LabelSelector`. -/
structure LabelSelector where
  matchLabels : KVMap
  matchExpressions : List LabelSelectorRequirement
deriving DecidableEq, Repr

/-- A compiled `labels.Requirement` (operator normalised as in `labels.NewRequirement`). -/
structure Requirement where
  key : String
  op : String
  values : List String
deriving DecidableEq, Repr

/-- A compiled `labels.Selector`: either `labels.Nothing()` or a requirement list
(`labels.Everything()` is the empty requirement list). -/
inductive Selector where
  | nothing
  | reqs (rs : List Requirement)
deriving DecidableEq, Repr

/-- Compile one `matchExpressions` entry, as `metav1.LabelSelectorAsSelector` does:
the four known operators map to requirements, anything else is an error. -/
def compileRequirement (ex : LabelSelectorRequirement) : Except String Requirement :=
  match ex.op with
  | "In" =>
    if ex.values.isEmpty then .error "for in operator, values set can not be empty"
    else .ok { key := ex.key, op := "in", values := ex.values }
  | "NotIn" =>
    if ex.values.isEmpty then .error "for notin operator, values set can not be empty"
    else .ok { key := ex.key, op := "notin", values := ex.values }
  | "Exists" =>
    if ex.values.isEmpty then .ok { key := ex.key, op := "exists", values := [] }
    else .error "values set must be empty for exists operator"
  | "DoesNotExist" =>
    if ex.values.isEmpty then .ok { key := ex.key, op := "!", values := [] }
    else .error "values set must be empty for does not exist operator"
  | other => .error ("\x22" ++ other ++ "\x22 is not a valid label selector operator")

/-- `metav1.LabelSelectorAsSelector`: `nil` selector matches nothing, the empty
selector matches everything, `matchLabels` become single-valued `in` requirements,
`matchExpressions` are compiled by operator. -/
def labelSelectorAsSelector (ps : Option LabelSelector) : Except String Selector :=
  match ps with
  | none => .ok .nothing
  | some ps =>
    if ps.matchLabels.length + ps.matchExpressions.length = 0 then .ok (.reqs [])
    else do
      let fromLabels := ps.matchLabels.map
        (fun kv => ({ key := kv.fst, op := "in", values := [kv.snd] } : Requirement))
      let fromExprs ← ps.matchExpressions.mapM compileRequirement
      .ok (.reqs (fromLabels ++ fromExprs))

/-- `labels.Requirement.Matches` over a label map. -/
def reqMatches (r : Requirement) (lbls : KVMap) : Bool :=
  match r.op with
  | "in" =>
    match getKV lbls r.key with
    | some v => r.values.contains v
    | none => false
  | "notin" =>
    match getKV lbls r.key with
    | some v => !(r.values.contains v)
    | none => true
  | "exists" => (getKV lbls r.key).isSome
  | "!" => (getKV lbls r.key).isNone
  | _ => false

/-- `labels.Selector.Matches`. -/
def selMatches (s : Selector) (lbls : KVMap) : Bool :=
  match s with
  | .nothing => false
  | .reqs rs => rs.all (fun r => reqMatches r lbls)

/-- Cluster-store read by key: `client.Get` on a ConfigMap (first match). -/
def getCM (cluster : List ConfigMap) (ns n : String) : Option ConfigMap :=
  match cluster with
  | [] => none
  | c :: rest => if c.nspace = ns ∧ c.name = n then some c else getCM rest ns n

/-- `client.List` restricted to a namespace with a label-selector filter. -/
def listCMs (cluster : List ConfigMap) (ns : String) (sel : Selector) : List ConfigMap :=
  match cluster with
  | [] => []
  | c :: rest =>
    if c.nspace = ns ∧ selMatches sel c.labels then c :: listCMs rest ns sel
    else listCMs rest ns sel

/-- `client.Create` of a ConfigMap (the API server stores the new object). -/
def createCM (cluster : List ConfigMap) (cm : ConfigMap) : List ConfigMap :=
  cluster ++ [cm]

/-- `client.Update` of a ConfigMap: the stored object with the same key is replaced. -/
def updateCM (cluster : List ConfigMap) (cm : ConfigMap) : List ConfigMap :=
  match cluster with
  | [] => []
  | c :: rest =>
    (if c.nspace = cm.nspace ∧ c.name = cm.name then cm else c) :: updateCM rest cm

/-- `client.Delete` of a ConfigMap by key. -/
def deleteCM (cluster : List ConfigMap) (ns n : String) : List ConfigMap :=
  match cluster with
  | [] => []
  | c :: rest =>
    if c.nspace = ns ∧ c.name = n then deleteCM rest ns n else c :: deleteCM rest ns n

/-- A cluster is well formed when no two stored objects share a (namespace, name)
key — the invariant the real API server maintains. -/
def WellFormed (cluster : List ConfigMap) : Prop :=
  cluster.Pairwise (fun a b => ¬(a.nspace = b.nspace ∧ a.name = b.name))

instance (cluster : List ConfigMap) : Decidable (WellFormed cluster) := by
  unfold WellFormed
  infer_instance

/-! ### The ConfigMirror custom resource (api/v1alpha1/configmirror_types.go) -/

/-- `SecretReference`. -/
structure SecretReference where
  name : String
  nspace : String
deriving DecidableEq, Repr

/-- `DatabaseConfig`. -/
structure DatabaseConfig where
  enabled : Bool
  secretRef : SecretReference
deriving DecidableEq, Repr

/-- `ConfigMirrorSpec`. -/
structure ConfigMirrorSpec where
  sourceNamespace : String
  targetNamespaces : List String
  selector : Option LabelSelector
  database : Option DatabaseConfig
deriving DecidableEq, Repr

/-- One `metav1.Condition` (the controller only ever writes type "Ready"). -/
structure Condition where
  ctype : String
  cstatus : String
  observedGeneration : Int
  lastTransitionTime : Nat
  reason : String
  message : String
deriving DecidableEq, Repr

/-- `ReplicatedConfigMap`: one status entry per currently tracked source object. -/
structure ReplicatedConfigMap where
  name : String
  sourceNamespace : String
  targets : List String
  lastSyncTime : Option Nat
deriving DecidableEq, Repr

/-- `DatabaseStatus`. -/
structure DatabaseStatus where
  connected : Bool
  lastSyncTime : Option Nat
  message : String
deriving DecidableEq, Repr

/-- `ConfigMirrorStatus`. -/
structure ConfigMirrorStatus where
  conditions : List Condition
  replicatedConfigMaps : List ReplicatedConfigMap
  databaseStatus : Option DatabaseStatus
  observedGeneration : Int
deriving DecidableEq, Repr

/-- `ConfigMirror`: object metadata the controller reads (name, namespace,
generation, deletion timestamp presence, finalizer list) plus spec and status. -/
structure ConfigMirror where
  name : String
  nspace : String
  generation : Int
  deletionTimestampZero : Bool
  finalizers : List String
  spec : ConfigMirrorSpec
  status : ConfigMirrorStatus
deriving DecidableEq, Repr

/-- `finalizerName` constant from the controller. -/
def finalizerName : String := "mirror.pawapay.io/finalizer"

/-- `ownerLabel` constant from the controller. -/
def ownerLabel : String := "mirror.pawapay.io/owner"

/-- The ownership-marker value `fmt.Sprintf("%s.%s", owner.Namespace, owner.Name)`. -/
def ownerLabelValue (owner : ConfigMirror) : String :=
  owner.nspace ++ "." ++ owner.name

/-! ### The persistence store (internal/database/postgres.go) -/

/-- One row of the `configmaps` table. -/
structure DBRecord where
  name : String
  nspace : String
  data : KVMap
  labels : KVMap
  annotations : KVMap
  configmirror_name : String
  configmirror_namespace : String
  created_at : Nat
  updated_at : Nat
deriving DecidableEq, Repr

/-- The table's natural key `(name, namespace, configmirror_namespace, configmirror_name)`. -/
def dbKeyMatches (r : DBRecord) (n ns mirrorName mirrorNs : String) : Bool :=
  r.name = n ∧ r.nspace = ns ∧
    r.configmirror_namespace = mirrorNs ∧ r.configmirror_name = mirrorName

/-- `Client.SaveConfigMap`: `INSERT ... ON CONFLICT (natural key) DO UPDATE` —
insert a fresh row, or overwrite data/labels/annotations and refresh `updated_at`. -/
def saveConfigMap (rows : List DBRecord) (cm : ConfigMap)
    (mirrorName mirrorNs : String) (now : Nat) : List DBRecord :=
  if rows.any (fun r => dbKeyMatches r cm.name cm.nspace mirrorName mirrorNs) then
    rows.map (fun r =>
      if dbKeyMatches r cm.name cm.nspace mirrorName mirrorNs then
        { r with data := cm.data, labels := cm.labels,
                 annotations := cm.annotations, updated_at := now }
      else r)
  else
    rows ++ [{ name := cm.name, nspace := cm.nspace, data := cm.data,
               labels := cm.labels, annotations := cm.annotations,
               configmirror_name := mirrorName, configmirror_namespace := mirrorNs,
               created_at := now, updated_at := now }]

/-- `Client.DeleteConfigMap`: `DELETE ... WHERE` the natural key matches
(the `pgx.ErrNoRows` signal on zero rows is ignored by the only caller). -/
def deleteConfigMapDB (rows : List DBRecord) (n ns mirrorName mirrorNs : String) :
    List DBRecord :=
  rows.filter (fun r => ¬(dbKeyMatches r n ns mirrorName mirrorNs = true))

/-! ### Fault model for fallible round-trips

Each flag makes the corresponding client or database call return an error;
a failed call leaves the store unchanged, as a failed API round-trip does. -/

/-- Which calls of a pass fail.  Keys: ConfigMap name and/or target namespace. -/
structure Faults where
  /-- `r.Get`/`r.Create`/`r.Update` inside `replicateConfigMap` for this
  (source name, target namespace) fails. -/
  replicateFail : String → String → Bool
  /-- `r.Get`/`r.Delete` inside `deleteReplicatedConfigMap` for this
  (orphan name, target namespace) fails. -/
  orphanDeleteFail : String → String → Bool
  /-- `r.List` inside `cleanupConfigMaps` for this target namespace fails. -/
  cleanupListFail : String → Bool
  /-- `r.Delete` inside `cleanupConfigMaps` for this (name, namespace) fails hard. -/
  cleanupDeleteFail : String → String → Bool
  /-- `DBClient.SaveConfigMap` for this source name fails. -/
  dbSaveFail : String → Bool
  /-- `DBClient.DeleteConfigMap` for this orphan name fails. -/
  dbDeleteFail : String → Bool
  /-- `DBClient.Ping` fails. -/
  dbPingFail : Bool
  /-- The main `r.List` of source ConfigMaps fails. -/
  listFail : Bool
  /-- `r.Status().Update` fails (e.g. a resource-version conflict). -/
  statusWriteFail : Bool
  /-- `r.Update` of the ConfigMirror object (finalizer add/remove) fails. -/
  mirrorUpdateFail : Bool

/-- The fault-free execution. -/
def noFaults : Faults where
  replicateFail := fun _ _ => false
  orphanDeleteFail := fun _ _ => false
  cleanupListFail := fun _ => false
  cleanupDeleteFail := fun _ _ => false
  dbSaveFail := fun _ => false
  dbDeleteFail := fun _ => false
  dbPingFail := false
  listFail := false
  statusWriteFail := false
  mirrorUpdateFail := false

/-- `r.DBClient != nil && configMirror.Spec.Database != nil && configMirror.Spec.Database.Enabled`:
the guard on every database call of the pass.  `hasDB` models `r.DBClient != nil`. -/
def dbEnabled (hasDB : Bool) (m : ConfigMirror) : Bool :=
  hasDB && (match m.spec.database with
            | some d => d.enabled
            | none => false)

/-! ### The controller (internal/controller/configmirror_controller.go) -/

/-- `replicateConfigMap` (lines 188–218): build the desired target object, then
create it if absent, else overwrite `data`/`binaryData` and the ownership-marker
label on the existing object.  A faulted call errors without changing the store. -/
def replicateConfigMap (f : Faults) (cluster : List ConfigMap) (source : ConfigMap)
    (targetNS : String) (owner : ConfigMirror) : Except String (List ConfigMap) :=
  if f.replicateFail source.name targetNS then .error "replicate call failed"
  else
    let target : ConfigMap :=
      { name := source.name, nspace := targetNS,
        labels := [(ownerLabel, ownerLabelValue owner)], annotations := [],
        data := source.data, binaryData := source.binaryData }
    match getCM cluster targetNS source.name with
    | none => .ok (createCM cluster target)
    | some existing =>
      let existing' :=
        { existing with data := target.data, binaryData := target.binaryData,
                        labels := setKV existing.labels ownerLabel (ownerLabelValue owner) }
      .ok (updateCM cluster existing')

/-- `deleteReplicatedConfigMap` (lines 220–238): fetch by key; absent means done;
delete only when the object carries this owner's marker value. -/
def deleteReplicatedConfigMap (f : Faults) (cluster : List ConfigMap)
    (n targetNS : String) (owner : ConfigMirror) : Except String (List ConfigMap) :=
  if f.orphanDeleteFail n targetNS then .error "delete call failed"
  else
    match getCM cluster targetNS n with
    | none => .ok cluster
    | some cm =>
      if getKV cm.labels ownerLabel = some (ownerLabelValue owner) then
        .ok (deleteCM cluster targetNS n)
      else .ok cluster

/-- `client.List` with `client.MatchingLabels{ownerLabel: val}` in a namespace:
the objects of `ns` whose ownership-marker label equals `val`. -/
def listOwned (cluster : List ConfigMap) (ns val : String) : List ConfigMap :=
  match cluster with
  | [] => []
  | c :: rest =>
    if c.nspace = ns ∧ getKV c.labels ownerLabel = some val then
      c :: listOwned rest ns val
    else listOwned rest ns val

/-- Inner loop of `cleanupConfigMaps`: delete each listed owned object; a hard
delete failure aborts with the deletions so far kept (the store has no rollback). -/
def cleanupDeleteList (f : Faults) (ns : String) :
    List ConfigMap → List ConfigMap → List ConfigMap × Option String
  | cluster, [] => (cluster, none)
  | cluster, cm :: rest =>
    if f.cleanupDeleteFail cm.name ns then (cluster, some "cleanup delete failed")
    else cleanupDeleteList f ns (deleteCM cluster ns cm.name) rest

/-- Outer loop of `cleanupConfigMaps` over the target namespaces: list the
objects bearing this owner's marker in the namespace, then delete them all. -/
def cleanupNamespaces (f : Faults) (m : ConfigMirror) :
    List ConfigMap → List String → List ConfigMap × Option String
  | cluster, [] => (cluster, none)
  | cluster, ns :: rest =>
    if f.cleanupListFail ns then (cluster, some "cleanup list failed")
    else
      let owned := listOwned cluster ns (ownerLabelValue m)
      let dl := cleanupDeleteList f ns cluster owned
      match dl.snd with
      | none => cleanupNamespaces f m dl.fst rest
      | some e => (dl.fst, some e)

/-- `cleanupConfigMaps` (lines 240–260): for every target namespace, list the
derived objects bearing this owner's marker and delete them.  No database call
occurs here. -/
def cleanupConfigMaps (f : Faults) (cluster : List ConfigMap) (m : ConfigMirror) :
    List ConfigMap × Option String :=
  cleanupNamespaces f m cluster m.spec.targetNamespaces

/-- `meta.FindStatusCondition`: first condition of the given type. -/
def findCondition (conds : List Condition) (t : String) : Option Condition :=
  match conds with
  | [] => none
  | c :: rest => if c.ctype = t then some c else findCondition rest t

/-- Replace every condition of `c'.ctype` by `c'` (helper for the upsert). -/
def replaceCondition (c' : Condition) : List Condition → List Condition
  | [] => []
  | c :: rest => (if c.ctype = c'.ctype then c' else c) :: replaceCondition c' rest

/-- `meta.SetStatusCondition`: upsert by condition type; when the status value is
unchanged the previous transition time is kept, otherwise the new one is taken. -/
def setStatusCondition (conds : List Condition) (newC : Condition) : List Condition :=
  match findCondition conds newC.ctype with
  | none => conds ++ [newC]
  | some existing =>
    replaceCondition
      { newC with lastTransitionTime :=
          if existing.cstatus = newC.cstatus then existing.lastTransitionTime
          else newC.lastTransitionTime }
      conds

/-- `updateStatus` (lines 262–274): set the Ready condition on the in-memory
object and issue a single `r.Status().Update` whose error is discarded (`_ =`).
Returns the in-memory object and the status the API server now holds:
on a write failure (e.g. a version conflict) the stored status stays `persisted`
— the write is dropped, nothing is retried. -/
def updateStatus (f : Faults) (now : Nat) (persisted : ConfigMirrorStatus)
    (m : ConfigMirror) (cstatus reason message : String) :
    ConfigMirror × ConfigMirrorStatus :=
  let cond : Condition :=
    { ctype := "Ready", cstatus := cstatus, observedGeneration := m.generation,
      lastTransitionTime := now, reason := reason, message := message }
  let m' := { m with status :=
    { m.status with conditions := setStatusCondition m.status.conditions cond } }
  (m', if f.statusWriteFail then persisted else m'.status)

/-- Replication inner loop (lines 116–123): try each target namespace; a failed
target is logged and omitted from `targets`, the loop continues.  Returns the
recorded target list and the cluster after the attempts. -/
def replicateToTargets (f : Faults) (owner : ConfigMirror) (cm : ConfigMap) :
    List ConfigMap → List String → List String × List ConfigMap
  | cluster, [] => ([], cluster)
  | cluster, t :: rest =>
    match replicateConfigMap f cluster cm t owner with
    | .error _ => replicateToTargets f owner cm cluster rest
    | .ok cluster' =>
      let rec' := replicateToTargets f owner cm cluster' rest
      (t :: rec'.fst, rec'.snd)

/-- Mutable state threaded through the per-source loop of `Reconcile`. -/
structure PassState where
  cluster : List ConfigMap
  rows : List DBRecord
  replicated : List ReplicatedConfigMap
deriving DecidableEq, Repr

/-- Per-source loop (lines 115–137): replicate to every target, save to the
database when enabled (failure logged only), then append this source's status
entry. -/
def processSources (f : Faults) (hasDB : Bool) (now : Nat) (m : ConfigMirror) :
    PassState → List ConfigMap → PassState
  | st, [] => st
  | st, cm :: rest =>
    let rt := replicateToTargets f m cm st.cluster m.spec.targetNamespaces
    let rows' :=
      if dbEnabled hasDB m && !f.dbSaveFail cm.name then
        saveConfigMap st.rows cm m.name m.nspace now
      else st.rows
    let entry : ReplicatedConfigMap :=
      { name := cm.name, sourceNamespace := cm.nspace,
        targets := rt.fst, lastSyncTime := some now }
    processSources f hasDB now m
      { cluster := rt.snd, rows := rows', replicated := st.replicated ++ [entry] } rest

/-- Orphan deletion across the current target namespaces (lines 150–154):
failures are logged and the loop continues. -/
def deleteOrphanFromTargets (f : Faults) (m : ConfigMirror) (n : String) :
    List ConfigMap → List String → List ConfigMap
  | cluster, [] => cluster
  | cluster, t :: rest =>
    match deleteReplicatedConfigMap f cluster n t m with
    | .error _ => deleteOrphanFromTargets f m n cluster rest
    | .ok cluster' => deleteOrphanFromTargets f m n cluster' rest

/-- Orphan cleanup (lines 139–163): every previously tracked name absent from
the current match set is deleted from each target namespace (marker-checked) and,
when the database is enabled, its persisted record is deleted (failure logged). -/
def cleanupOrphans (f : Faults) (hasDB : Bool) (m : ConfigMirror) (names : List String) :
    List ConfigMap → List DBRecord → List ReplicatedConfigMap →
    List ConfigMap × List DBRecord
  | cluster, rows, [] => (cluster, rows)
  | cluster, rows, prev :: rest =>
    if names.contains prev.name then cleanupOrphans f hasDB m names cluster rows rest
    else
      let cluster' := deleteOrphanFromTargets f m prev.name cluster m.spec.targetNamespaces
      let rows' :=
        if dbEnabled hasDB m && !f.dbDeleteFail prev.name then
          deleteConfigMapDB rows prev.name prev.sourceNamespace m.name m.nspace
        else rows
      cleanupOrphans f hasDB m names cluster' rows' rest

/-- `ctrl.Result`. -/
structure CtrlResult where
  requeueAfter : Nat
deriving DecidableEq, Repr

deriving instance DecidableEq for Except

/-- Everything a pass can change, plus its return value.  `mirror` is the
in-memory object at return; `persistedStatus` is the status held by the API
server (they differ exactly when the status write failed). -/
structure ReconcileOutcome where
  cluster : List ConfigMap
  rows : List DBRecord
  mirror : ConfigMirror
  persistedStatus : ConfigMirrorStatus
  result : Except String CtrlResult
deriving DecidableEq, Repr

/-- The five-minute periodic requeue of a successful pass, in seconds. -/
def requeuePeriod : Nat := 300

/-- The non-terminating body of `Reconcile` (lines 95–185): compile the selector
(fatal if invalid), list source ConfigMaps **in the ConfigMirror's own
namespace** (line 104 uses `configMirror.Namespace`, not
`Spec.SourceNamespace`), replicate and save each match, clean up orphans,
rebuild the status, probe the database, write the status, requeue. -/
def reconcileActive (f : Faults) (hasDB : Bool) (now : Nat) (m : ConfigMirror)
    (cluster : List ConfigMap) (rows : List DBRecord) : ReconcileOutcome :=
  match labelSelectorAsSelector m.spec.selector with
  | .error e =>
    let u := updateStatus f now m.status m "False" "InvalidSelector" e
    { cluster := cluster, rows := rows, mirror := u.fst, persistedStatus := u.snd,
      result := .error e }
  | .ok sel =>
    if f.listFail then
      let u := updateStatus f now m.status m "False" "ListFailed" "list failed"
      { cluster := cluster, rows := rows, mirror := u.fst, persistedStatus := u.snd,
        result := .error "list failed" }
    else
      let items := listCMs cluster m.nspace sel
      let st := processSources f hasDB now m
        { cluster := cluster, rows := rows, replicated := [] } items
      let names := items.map (fun c => c.name)
      let co :=
        cleanupOrphans f hasDB m names st.cluster st.rows m.status.replicatedConfigMaps
      let m1 := { m with status :=
        { m.status with
            replicatedConfigMaps := st.replicated,
            observedGeneration := m.generation,
            databaseStatus :=
              if dbEnabled hasDB m then
                if f.dbPingFail then
                  some { connected := false, lastSyncTime := none, message := "ping failed" }
                else
                  some { connected := true, lastSyncTime := some now, message := "Connected" }
              else m.status.databaseStatus } }
      let u := updateStatus f now m.status m1 "True" "ReconcileSuccess"
        "Successfully replicated ConfigMaps"
      { cluster := co.fst, rows := co.snd, mirror := u.fst, persistedStatus := u.snd,
        result := .ok { requeueAfter := requeuePeriod } }

/-- `Reconcile` after a successful fetch of the ConfigMirror (lines 73–185):
the finalizer protocol, dispatching to cleanup (Terminating) or to the
replication body (Active).  The not-found fast path (lines 65–71) returns
without touching anything and is not modelled further. -/
def reconcile (f : Faults) (hasDB : Bool) (now : Nat) (m : ConfigMirror)
    (cluster : List ConfigMap) (rows : List DBRecord) : ReconcileOutcome :=
  if m.deletionTimestampZero then
    if m.finalizers.contains finalizerName then
      reconcileActive f hasDB now m cluster rows
    else
      let m' := { m with finalizers := m.finalizers ++ [finalizerName] }
      if f.mirrorUpdateFail then
        { cluster := cluster, rows := rows, mirror := m, persistedStatus := m.status,
          result := .error "update failed" }
      else reconcileActive f hasDB now m' cluster rows
  else
    if m.finalizers.contains finalizerName then
      let cc := cleanupConfigMaps f cluster m
      match cc.snd with
      | some e =>
        { cluster := cc.fst, rows := rows, mirror := m, persistedStatus := m.status,
          result := .error e }
      | none =>
        let m' := { m with finalizers := m.finalizers.filter (fun x => x ≠ finalizerName) }
        if f.mirrorUpdateFail then
          { cluster := cc.fst, rows := rows, mirror := m, persistedStatus := m.status,
            result := .error "update failed" }
        else
          { cluster := cc.fst, rows := rows, mirror := m', persistedStatus := m.status,
            result := .ok { requeueAfter := 0 } }
    else
      { cluster := cluster, rows := rows, mirror := m, persistedStatus := m.status,
        result := .ok { requeueAfter := 0 } }

/-- Modelled from the spec (for comparison with the code only): "List source
objects in `sourceNamespace` filtered by the compiled predicate."  This is the
set of source objects the specification says a pass considers. -/
def specConsideredSources (m : ConfigMirror) (cluster : List ConfigMap) :
    List ConfigMap :=
  match labelSelectorAsSelector m.spec.selector with
  | .error _ => []
  | .ok sel => listCMs cluster m.spec.sourceNamespace sel

/-- A status with its database-status field erased, for frame statements that
allow a difference only in `databaseStatus`. -/
def eraseDBStatus (s : ConfigMirrorStatus) : ConfigMirrorStatus :=
  { s with databaseStatus := none }

/-- The status entry the per-source loop records for source `s`: the recorded
target list is exactly the sequence of target namespaces whose replicate call
succeeded, in spec order. -/
def entryFor (f : Faults) (now : Nat) (m : ConfigMirror) (s : ConfigMap) :
    ReplicatedConfigMap :=
  { name := s.name, sourceNamespace := s.nspace,
    targets := m.spec.targetNamespaces.filter (fun t => !(f.replicateFail s.name t)),
    lastSyncTime := some now }

/-! ### Concrete fixtures used by counterexamples and witnesses -/

/-- An empty status, as a freshly created ConfigMirror has. -/
def emptyStatus : ConfigMirrorStatus :=
  { conditions := [], replicatedConfigMaps := [], databaseStatus := none,
    observedGeneration := 0 }

/-- A ConfigMirror in namespace "ops" whose spec names "src" as the source
namespace (used to exhibit the listing-namespace divergence). -/
def mirC1 : ConfigMirror :=
  { name := "m", nspace := "ops", generation := 1, deletionTimestampZero := true,
    finalizers := [finalizerName],
    spec := { sourceNamespace := "src", targetNamespaces := ["prod"],
              selector := some { matchLabels := [("app", "x")], matchExpressions := [] },
              database := none },
    status := emptyStatus }

/-- A matching ConfigMap living in the spec's `sourceNamespace` "src". -/
def cmInSrc : ConfigMap :=
  { name := "a", nspace := "src", labels := [("app", "x")], annotations := [],
    data := [("k", "v")], binaryData := [] }

/-- A matching ConfigMap living in the ConfigMirror's own namespace "ops". -/
def cmInOps : ConfigMap :=
  { name := "b", nspace := "ops", labels := [("app", "x")], annotations := [],
    data := [("k2", "v2")], binaryData := [] }

/-- Owner for the ownership-collision scenario. -/
def mirC2 : ConfigMirror :=
  { name := "m", nspace := "ops", generation := 1, deletionTimestampZero := true,
    finalizers := [finalizerName],
    spec := { sourceNamespace := "ops", targetNamespaces := ["prod"],
              selector := some { matchLabels := [("app", "y")], matchExpressions := [] },
              database := none },
    status := emptyStatus }

/-- Matched source object named "x". -/
def srcC2 : ConfigMap :=
  { name := "x", nspace := "ops", labels := [("app", "y")], annotations := [],
    data := [("mine", "1")], binaryData := [] }

/-- A ConfigMap in the target namespace with the same name "x" but a different
owner's marker value — by the ownership-safety claim it must never be touched. -/
def foreignC2 : ConfigMap :=
  { name := "x", nspace := "prod", labels := [(ownerLabel, "other.owner")],
    annotations := [("note", "keep")], data := [("their", "2")], binaryData := [] }

/-- A terminating ConfigMirror with database persistence enabled. -/
def mirC3 : ConfigMirror :=
  { name := "m", nspace := "ops", generation := 1, deletionTimestampZero := false,
    finalizers := [finalizerName],
    spec := { sourceNamespace := "src", targetNamespaces := ["prod"],
              selector := some { matchLabels := [("app", "x")], matchExpressions := [] },
              database := some { enabled := true,
                                 secretRef := { name := "creds", nspace := "ops" } } },
    status := emptyStatus }

/-- The source object of the terminating scenario (must survive cleanup). -/
def srcC3 : ConfigMap :=
  { name := "a", nspace := "src", labels := [("app", "x")], annotations := [],
    data := [("k", "v")], binaryData := [] }

/-- A derived copy bearing mirC3's marker (must be removed by cleanup). -/
def replicaC3 : ConfigMap :=
  { name := "a", nspace := "prod", labels := [(ownerLabel, "ops.m")], annotations := [],
    data := [("k", "v")], binaryData := [] }

/-- A persisted record owned by mirC3. -/
def rowC3 : DBRecord :=
  { name := "a", nspace := "src", data := [("k", "v")], labels := [], annotations := [],
    configmirror_name := "m", configmirror_namespace := "ops",
    created_at := 0, updated_at := 0 }

/-- A ConfigMirror whose sole target namespace is its own namespace, with a
`DoesNotExist` selector on the ownership marker: pass one stamps the marker onto
the source object, pass two therefore no longer matches it and deletes it. -/
def mirC5 : ConfigMirror :=
  { name := "m", nspace := "ops", generation := 1, deletionTimestampZero := true,
    finalizers := [finalizerName],
    spec := { sourceNamespace := "ops", targetNamespaces := ["ops"],
              selector := some { matchLabels := [], matchExpressions := [{ key := ownerLabel, op := "DoesNotExist", values := [] }] },
              database := none },
    status := emptyStatus }

/-- The initially matching source object of the idempotence counterexample. -/
def cmC5 : ConfigMap :=
  { name := "a", nspace := "ops", labels := [], annotations := [],
    data := [("k", "v")], binaryData := [] }

/-- A ConfigMirror with three target namespaces (partial-failure scenario). -/
def mirC7 : ConfigMirror :=
  { name := "m", nspace := "ops", generation := 1, deletionTimestampZero := true,
    finalizers := [finalizerName],
    spec := { sourceNamespace := "ops", targetNamespaces := ["t1", "t2", "t3"],
              selector := some { matchLabels := [("app", "x")], matchExpressions := [] },
              database := none },
    status := emptyStatus }

/-- The matched source object of the partial-failure scenario. -/
def cmC7 : ConfigMap :=
  { name := "a", nspace := "ops", labels := [("app", "x")], annotations := [],
    data := [("k", "v")], binaryData := [] }

/-- A previously tracked entry whose source is gone (orphan scenario). -/
def prevC6 : ReplicatedConfigMap :=
  { name := "old", sourceNamespace := "ops", targets := ["prod"], lastSyncTime := none }

/-- Owner of the orphan scenario, with persistence enabled and prevC6 tracked. -/
def mirC6 : ConfigMirror :=
  { name := "m", nspace := "ops", generation := 2, deletionTimestampZero := true,
    finalizers := [finalizerName],
    spec := { sourceNamespace := "ops", targetNamespaces := ["prod"],
              selector := some { matchLabels := [("app", "y")], matchExpressions := [] },
              database := some { enabled := true,
                                 secretRef := { name := "creds", nspace := "ops" } } },
    status := { conditions := [], replicatedConfigMaps := [prevC6],
                databaseStatus := none, observedGeneration := 1 } }

/-- The stale derived copy of "old" in the target namespace. -/
def oldReplicaC6 : ConfigMap :=
  { name := "old", nspace := "prod", labels := [(ownerLabel, "ops.m")],
    annotations := [], data := [("k", "v")], binaryData := [] }

/-- The stale persisted record of "old". -/
def rowC6 : DBRecord :=
  { name := "old", nspace := "ops", data := [("k", "v")], labels := [],
    annotations := [], configmirror_name := "m", configmirror_namespace := "ops",
    created_at := 0, updated_at := 0 }

/-- The compiled selector of mirC6. -/
def selC6 : Selector := .reqs [{ key := "app", op := "in", values := ["y"] }]

/-- The shape a derived copy has right after a successful replicate call: the
key (t, s.name) holds an object carrying s's payload and an already-normalised
label list (re-setting the marker changes nothing). -/
def replicaNormalized (cluster : List ConfigMap) (s : ConfigMap) (v t : String) :
    Prop :=
  ∃ ex, getCM cluster t s.name = some ex ∧ ex.data = s.data ∧
    ex.binaryData = s.binaryData ∧ setKV ex.labels ownerLabel v = ex.labels

/-- The shape rows have for source `s` after a save in this pass: at least one
row carries s's natural key, and every such row already carries s's payload and
this pass's timestamp, so a repeated upsert changes nothing. -/
def RowsNormalized (rows : List DBRecord) (s : ConfigMap) (mn mns : String)
    (now : Nat) : Prop :=
  rows.any (fun r => dbKeyMatches r s.name s.nspace mn mns) = true ∧
  ∀ r ∈ rows, dbKeyMatches r s.name s.nspace mn mns = true →
    r.data = s.data ∧ r.labels = s.labels ∧ r.annotations = s.annotations ∧
      r.updated_at = now

/-! ### Basic lemmas about maps and cluster operations -/

theorem getKV_setKV_same (m : KVMap) (k v : String) :
    getKV (setKV m k v) k = some v := by
  simp [setKV, getKV]

theorem getKV_removeKey_ne (m : KVMap) (k k' : String) (h : k' ≠ k) :
    getKV (removeKey m k) k' = getKV m k' := by
  induction m with
  | nil => rfl
  | cons p rest ih =>
    rcases p with ⟨pk, pv⟩
    by_cases hk : pk = k
    · simp [removeKey, hk, getKV, Ne.symm h, ih]
    · by_cases hk' : pk = k'
      · simp [removeKey, hk, getKV, hk', h]
      · simp [removeKey, hk, getKV, hk', ih]

theorem getKV_setKV_ne (m : KVMap) (k v k' : String) (h : k' ≠ k) :
    getKV (setKV m k v) k' = getKV m k' := by
  simp only [setKV, getKV]
  rw [if_neg (fun hc => h hc.symm)]
  exact getKV_removeKey_ne m k k' h

theorem removeKey_idem (m : KVMap) (k : String) :
    removeKey (removeKey m k) k = removeKey m k := by
  induction m with
  | nil => rfl
  | cons p rest ih =>
    rcases p with ⟨pk, pv⟩
    by_cases hk : pk = k
    · simp [removeKey, hk, ih]
    · simp [removeKey, hk, ih]

theorem setKV_idem (m : KVMap) (k v : String) :
    setKV (setKV m k v) k v = setKV m k v := by
  simp [setKV, removeKey, removeKey_idem]

theorem getCM_some (cluster : List ConfigMap) (ns n : String) (cm : ConfigMap)
    (h : getCM cluster ns n = some cm) :
    cm ∈ cluster ∧ cm.nspace = ns ∧ cm.name = n := by
  induction cluster with
  | nil => simp [getCM] at h
  | cons c rest ih =>
    by_cases hc : c.nspace = ns ∧ c.name = n
    · simp only [getCM, if_pos hc] at h
      cases Option.some.inj h
      exact ⟨List.mem_cons_self _ _, hc⟩
    · simp only [getCM, if_neg hc] at h
      rcases ih h with ⟨hmem, hkey⟩
      exact ⟨List.mem_cons_of_mem c hmem, hkey⟩

theorem getCM_none (cluster : List ConfigMap) (ns n : String)
    (h : getCM cluster ns n = none) :
    ∀ cm ∈ cluster, ¬(cm.nspace = ns ∧ cm.name = n) := by
  induction cluster with
  | nil => intro cm hm; simp at hm
  | cons c rest ih =>
    by_cases hc : c.nspace = ns ∧ c.name = n
    · simp [getCM, if_pos hc] at h
    · simp only [getCM, if_neg hc] at h
      intro cm hm
      rcases List.mem_cons.mp hm with hm | hm
      · exact hm ▸ hc
      · exact ih h cm hm

theorem getCM_createCM_ne (cluster : List ConfigMap) (cm : ConfigMap) (ns n : String)
    (h : ¬(cm.nspace = ns ∧ cm.name = n)) :
    getCM (createCM cluster cm) ns n = getCM cluster ns n := by
  induction cluster with
  | nil => simp [createCM, getCM, h]
  | cons c rest ih =>
    by_cases hc : c.nspace = ns ∧ c.name = n
    · simp only [createCM, List.cons_append, getCM, if_pos hc]
    · simp only [createCM, List.cons_append, getCM, if_neg hc] at ih ⊢
      exact ih

theorem getCM_createCM_self (cluster : List ConfigMap) (cm : ConfigMap)
    (h : getCM cluster cm.nspace cm.name = none) :
    getCM (createCM cluster cm) cm.nspace cm.name = some cm := by
  induction cluster with
  | nil => simp [createCM, getCM]
  | cons c rest ih =>
    by_cases hc : c.nspace = cm.nspace ∧ c.name = cm.name
    · simp [getCM, if_pos hc] at h
    · simp only [getCM, if_neg hc] at h
      simp only [createCM, List.cons_append, getCM, if_neg hc] at ih ⊢
      exact ih h

theorem getCM_updateCM_ne (cluster : List ConfigMap) (cm : ConfigMap) (ns n : String)
    (h : ¬(cm.nspace = ns ∧ cm.name = n)) :
    getCM (updateCM cluster cm) ns n = getCM cluster ns n := by
  induction cluster with
  | nil => rfl
  | cons c rest ih =>
    by_cases hc : c.nspace = cm.nspace ∧ c.name = cm.name
    · have hcq : ¬(c.nspace = ns ∧ c.name = n) := by
        intro hck
        exact h ⟨hc.1 ▸ hck.1, hc.2 ▸ hck.2⟩
      simp only [updateCM, if_pos hc, getCM, if_neg h, if_neg hcq]
      exact ih
    · by_cases hq : c.nspace = ns ∧ c.name = n
      · simp only [updateCM, if_neg hc, getCM, if_pos hq]
      · simp only [updateCM, if_neg hc, getCM, if_neg hq]
        exact ih

theorem getCM_updateCM_self (cluster : List ConfigMap) (cm ex : ConfigMap)
    (h : getCM cluster cm.nspace cm.name = some ex) :
    getCM (updateCM cluster cm) cm.nspace cm.name = some cm := by
  induction cluster with
  | nil => simp [getCM] at h
  | cons c rest ih =>
    by_cases hc : c.nspace = cm.nspace ∧ c.name = cm.name
    · simp [updateCM, if_pos hc, getCM]
    · simp only [getCM, if_neg hc] at h
      simp only [updateCM, if_neg hc, getCM, if_neg hc]
      exact ih h

theorem mem_deleteCM (cluster : List ConfigMap) (ns n : String) (cm : ConfigMap) :
    cm ∈ deleteCM cluster ns n ↔ cm ∈ cluster ∧ ¬(cm.nspace = ns ∧ cm.name = n) := by
  induction cluster with
  | nil => simp [deleteCM]
  | cons c rest ih =>
    by_cases hc : c.nspace = ns ∧ c.name = n
    · simp only [deleteCM, if_pos hc]
      rw [ih]
      constructor
      · rintro ⟨hm, hk⟩
        exact ⟨List.mem_cons_of_mem c hm, hk⟩
      · rintro ⟨hm, hk⟩
        rcases List.mem_cons.mp hm with hm | hm
        · exact absurd (hm ▸ hc) hk
        · exact ⟨hm, hk⟩
    · simp only [deleteCM, if_neg hc, List.mem_cons]
      rw [ih]
      constructor
      · rintro (hm | ⟨hm, hk⟩)
        · exact ⟨Or.inl hm, hm ▸ hc⟩
        · exact ⟨Or.inr hm, hk⟩
      · rintro ⟨hm | hm, hk⟩
        · exact Or.inl hm
        · exact Or.inr ⟨hm, hk⟩

theorem deleteCM_subset (cluster : List ConfigMap) (ns n : String) :
    ∀ cm ∈ deleteCM cluster ns n, cm ∈ cluster := by
  intro cm h
  exact ((mem_deleteCM cluster ns n cm).mp h).1

theorem mem_updateCM (cluster : List ConfigMap) (cm c : ConfigMap)
    (h : c ∈ updateCM cluster cm) : c ∈ cluster ∨ c = cm := by
  induction cluster with
  | nil => simp [updateCM] at h
  | cons c0 rest ih =>
    simp only [updateCM, List.mem_cons] at h
    rcases h with h | h
    · by_cases hc : c0.nspace = cm.nspace ∧ c0.name = cm.name
      · rw [if_pos hc] at h
        exact Or.inr h
      · rw [if_neg hc] at h
        exact Or.inl (List.mem_cons.mpr (Or.inl h))
    · rcases ih h with h | h
      · exact Or.inl (List.mem_cons.mpr (Or.inr h))
      · exact Or.inr h

theorem mem_createCM (cluster : List ConfigMap) (cm c : ConfigMap)
    (h : c ∈ createCM cluster cm) : c ∈ cluster ∨ c = cm := by
  unfold createCM at h
  rcases List.mem_append.mp h with h | h
  · exact Or.inl h
  · exact Or.inr (List.mem_singleton.mp h)

theorem getCM_deleteCM_ne (cluster : List ConfigMap) (ns n ns' n' : String)
    (h : ¬(ns = ns' ∧ n = n')) :
    getCM (deleteCM cluster ns n) ns' n' = getCM cluster ns' n' := by
  induction cluster with
  | nil => rfl
  | cons c rest ih =>
    by_cases hdel : c.nspace = ns ∧ c.name = n
    · have hq : ¬(c.nspace = ns' ∧ c.name = n') := by
        intro hck
        exact h ⟨hdel.1 ▸ hck.1, hdel.2 ▸ hck.2⟩
      simp only [deleteCM, if_pos hdel, getCM, if_neg hq]
      exact ih
    · by_cases hq : c.nspace = ns' ∧ c.name = n'
      · simp only [deleteCM, if_neg hdel, getCM, if_pos hq]
      · simp only [deleteCM, if_neg hdel, getCM, if_neg hq]
        exact ih

theorem replicateConfigMap_congr (f1 f2 : Faults) (cluster : List ConfigMap)
    (s : ConfigMap) (t : String) (owner : ConfigMirror)
    (h : f1.replicateFail = f2.replicateFail) :
    replicateConfigMap f1 cluster s t owner = replicateConfigMap f2 cluster s t owner := by
  simp only [replicateConfigMap, h]

theorem replicateToTargets_congr (f1 f2 : Faults) (owner : ConfigMirror) (s : ConfigMap)
    (h : f1.replicateFail = f2.replicateFail) :
    ∀ (ts : List String) (cluster : List ConfigMap),
      replicateToTargets f1 owner s cluster ts = replicateToTargets f2 owner s cluster ts := by
  intro ts
  induction ts with
  | nil => intro cluster; rfl
  | cons t rest ih =>
    intro cluster
    simp only [replicateToTargets, replicateConfigMap_congr f1 f2 cluster s t owner h]
    cases replicateConfigMap f2 cluster s t owner with
    | error e => exact ih cluster
    | ok cluster' => simp only [ih cluster']

theorem processSources_cluster_congr (f1 f2 : Faults) (hasDB : Bool) (now : Nat)
    (m : ConfigMirror) (h : f1.replicateFail = f2.replicateFail) :
    ∀ (items : List ConfigMap) (st1 st2 : PassState),
      st1.cluster = st2.cluster → st1.replicated = st2.replicated →
      (processSources f1 hasDB now m st1 items).cluster =
        (processSources f2 hasDB now m st2 items).cluster ∧
      (processSources f1 hasDB now m st1 items).replicated =
        (processSources f2 hasDB now m st2 items).replicated := by
  intro items
  induction items with
  | nil => intro st1 st2 hc hr; exact ⟨hc, hr⟩
  | cons cm rest ih =>
    intro st1 st2 hc hr
    simp only [processSources]
    apply ih
    · simp only [hc, replicateToTargets_congr f1 f2 m cm h]
    · simp only [hc, hr, replicateToTargets_congr f1 f2 m cm h]

theorem deleteReplicatedConfigMap_congr (f1 f2 : Faults) (cluster : List ConfigMap)
    (n t : String) (owner : ConfigMirror)
    (h : f1.orphanDeleteFail = f2.orphanDeleteFail) :
    deleteReplicatedConfigMap f1 cluster n t owner =
      deleteReplicatedConfigMap f2 cluster n t owner := by
  simp only [deleteReplicatedConfigMap, h]

theorem deleteOrphanFromTargets_congr (f1 f2 : Faults) (m : ConfigMirror) (n : String)
    (h : f1.orphanDeleteFail = f2.orphanDeleteFail) :
    ∀ (ts : List String) (cluster : List ConfigMap),
      deleteOrphanFromTargets f1 m n cluster ts = deleteOrphanFromTargets f2 m n cluster ts := by
  intro ts
  induction ts with
  | nil => intro cluster; rfl
  | cons t rest ih =>
    intro cluster
    simp only [deleteOrphanFromTargets, deleteReplicatedConfigMap_congr f1 f2 cluster n t m h]
    cases deleteReplicatedConfigMap f2 cluster n t m with
    | error e => exact ih cluster
    | ok cluster' => exact ih cluster'

theorem cleanupOrphans_cluster_congr (f1 f2 : Faults) (hasDB : Bool) (m : ConfigMirror)
    (names : List String) (h : f1.orphanDeleteFail = f2.orphanDeleteFail) :
    ∀ (prevs : List ReplicatedConfigMap) (cluster : List ConfigMap)
      (rows1 rows2 : List DBRecord),
      (cleanupOrphans f1 hasDB m names cluster rows1 prevs).fst =
        (cleanupOrphans f2 hasDB m names cluster rows2 prevs).fst := by
  intro prevs
  induction prevs with
  | nil => intro cluster rows1 rows2; rfl
  | cons prev rest ih =>
    intro cluster rows1 rows2
    simp only [cleanupOrphans]
    by_cases hn : names.contains prev.name
    · simp only [hn, if_true]
      exact ih cluster rows1 rows2
    · simp only [hn, if_false, Bool.false_eq_true,
        deleteOrphanFromTargets_congr f1 f2 m prev.name h]
      apply ih

theorem processSources_rows_congr (f1 f2 : Faults) (hasDB : Bool) (now : Nat)
    (m : ConfigMirror) (h : f1.dbSaveFail = f2.dbSaveFail) :
    ∀ (items : List ConfigMap) (st1 st2 : PassState), st1.rows = st2.rows →
      (processSources f1 hasDB now m st1 items).rows =
        (processSources f2 hasDB now m st2 items).rows := by
  intro items
  induction items with
  | nil => intro st1 st2 hr; exact hr
  | cons cm rest ih =>
    intro st1 st2 hr
    simp only [processSources]
    apply ih
    simp only [hr, h]

theorem cleanupOrphans_rows_congr (f1 f2 : Faults) (hasDB : Bool) (m : ConfigMirror)
    (names : List String) (h : f1.dbDeleteFail = f2.dbDeleteFail) :
    ∀ (prevs : List ReplicatedConfigMap) (cluster1 cluster2 : List ConfigMap)
      (rows : List DBRecord),
      (cleanupOrphans f1 hasDB m names cluster1 rows prevs).snd =
        (cleanupOrphans f2 hasDB m names cluster2 rows prevs).snd := by
  intro prevs
  induction prevs with
  | nil => intro cluster1 cluster2 rows; rfl
  | cons prev rest ih =>
    intro cluster1 cluster2 rows
    simp only [cleanupOrphans]
    by_cases hn : names.contains prev.name
    · simp only [hn, if_true]
      exact ih cluster1 cluster2 rows
    · simp only [hn, if_false, Bool.false_eq_true, h]
      apply ih

/-- Any two fault configurations agreeing on the non-database client calls give
the same pass result, the same cluster effects, and statuses equal up to
`databaseStatus`. -/
theorem reconcileActive_congr (f1 f2 : Faults) (hasDB : Bool) (now : Nat)
    (m : ConfigMirror) (cluster : List ConfigMap) (rows : List DBRecord)
    (hrep : f1.replicateFail = f2.replicateFail)
    (horph : f1.orphanDeleteFail = f2.orphanDeleteFail)
    (hlist : f1.listFail = f2.listFail)
    (hstat : f1.statusWriteFail = f2.statusWriteFail) :
    (reconcileActive f1 hasDB now m cluster rows).result =
      (reconcileActive f2 hasDB now m cluster rows).result ∧
    (reconcileActive f1 hasDB now m cluster rows).cluster =
      (reconcileActive f2 hasDB now m cluster rows).cluster ∧
    eraseDBStatus (reconcileActive f1 hasDB now m cluster rows).mirror.status =
      eraseDBStatus (reconcileActive f2 hasDB now m cluster rows).mirror.status ∧
    eraseDBStatus (reconcileActive f1 hasDB now m cluster rows).persistedStatus =
      eraseDBStatus (reconcileActive f2 hasDB now m cluster rows).persistedStatus := by
  cases hsel : labelSelectorAsSelector m.spec.selector with
  | error e =>
    simp only [reconcileActive, hsel, updateStatus, hstat]
    cases f2.statusWriteFail <;> simp
  | ok sel =>
    by_cases hlf : f2.listFail
    · simp only [reconcileActive, hsel, hlist, hlf, if_true, updateStatus, hstat]
      cases f2.statusWriteFail <;> simp
    · have hps := processSources_cluster_congr f1 f2 hasDB now m hrep
        (listCMs cluster m.nspace sel)
        { cluster := cluster, rows := rows, replicated := [] }
        { cluster := cluster, rows := rows, replicated := [] } rfl rfl
      have hco := cleanupOrphans_cluster_congr f1 f2 hasDB m
        ((listCMs cluster m.nspace sel).map (fun c => c.name)) horph
        m.status.replicatedConfigMaps
      rw [Bool.not_eq_true] at hlf
      simp only [reconcileActive, hsel, hlist, hlf, Bool.false_eq_true, if_false,
        updateStatus, hstat]
      refine ⟨by trivial, ?_, ?_, ?_⟩
      · rw [hps.1]
        exact hco _ _ _
      · simp only [eraseDBStatus, hps.2]
      · cases hsw : f2.statusWriteFail
        · simp only [hsw, Bool.false_eq_true, if_false, eraseDBStatus, hps.2]
        · simp only [hsw, if_true]

/-- As `reconcileActive_congr`, but without requiring agreement on the status
write: the result, the cluster and the in-memory status (up to `databaseStatus`)
never depend on whether the status write succeeds. -/
theorem reconcileActive_congr3 (f1 f2 : Faults) (hasDB : Bool) (now : Nat)
    (m : ConfigMirror) (cluster : List ConfigMap) (rows : List DBRecord)
    (hrep : f1.replicateFail = f2.replicateFail)
    (horph : f1.orphanDeleteFail = f2.orphanDeleteFail)
    (hlist : f1.listFail = f2.listFail) :
    (reconcileActive f1 hasDB now m cluster rows).result =
      (reconcileActive f2 hasDB now m cluster rows).result ∧
    (reconcileActive f1 hasDB now m cluster rows).cluster =
      (reconcileActive f2 hasDB now m cluster rows).cluster ∧
    eraseDBStatus (reconcileActive f1 hasDB now m cluster rows).mirror.status =
      eraseDBStatus (reconcileActive f2 hasDB now m cluster rows).mirror.status := by
  cases hsel : labelSelectorAsSelector m.spec.selector with
  | error e =>
    simp only [reconcileActive, hsel, updateStatus]
    refine ⟨?_, ?_, ?_⟩ <;> trivial
  | ok sel =>
    by_cases hlf : f2.listFail
    · simp only [reconcileActive, hsel, hlist, hlf, if_true, updateStatus]
      refine ⟨?_, ?_, ?_⟩ <;> trivial
    · have hps := processSources_cluster_congr f1 f2 hasDB now m hrep
        (listCMs cluster m.nspace sel)
        { cluster := cluster, rows := rows, replicated := [] }
        { cluster := cluster, rows := rows, replicated := [] } rfl rfl
      have hco := cleanupOrphans_cluster_congr f1 f2 hasDB m
        ((listCMs cluster m.nspace sel).map (fun c => c.name)) horph
        m.status.replicatedConfigMaps
      rw [Bool.not_eq_true] at hlf
      simp only [reconcileActive, hsel, hlist, hlf, Bool.false_eq_true, if_false,
        updateStatus]
      refine ⟨by trivial, ?_, ?_⟩
      · rw [hps.1]
        exact hco _ _ _
      · simp only [eraseDBStatus, hps.2]

/-- Companion to `reconcileActive_congr` for the persisted rows: fault
configurations agreeing on the listing and database save/delete calls leave
identical rows. -/
theorem reconcileActive_rows_congr (f1 f2 : Faults) (hasDB : Bool) (now : Nat)
    (m : ConfigMirror) (cluster : List ConfigMap) (rows : List DBRecord)
    (hlist : f1.listFail = f2.listFail)
    (hsave : f1.dbSaveFail = f2.dbSaveFail)
    (hdel : f1.dbDeleteFail = f2.dbDeleteFail) :
    (reconcileActive f1 hasDB now m cluster rows).rows =
      (reconcileActive f2 hasDB now m cluster rows).rows := by
  cases hsel : labelSelectorAsSelector m.spec.selector with
  | error e => simp only [reconcileActive, hsel]
  | ok sel =>
    by_cases hlf : f2.listFail
    · simp only [reconcileActive, hsel, hlist, hlf, if_true]
    · have hpr := processSources_rows_congr f1 f2 hasDB now m hsave
        (listCMs cluster m.nspace sel)
        { cluster := cluster, rows := rows, replicated := [] }
        { cluster := cluster, rows := rows, replicated := [] } rfl
      rw [Bool.not_eq_true] at hlf
      simp only [reconcileActive, hsel, hlist, hlf, Bool.false_eq_true, if_false]
      rw [hpr]
      exact cleanupOrphans_rows_congr f1 f2 hasDB m _ hdel _ _ _ _

/-! ### C1 -/

/-- C1: the claim says the objects considered for replication are the ConfigMaps
of `spec.sourceNamespace` that match the selector.  The code (line 104) lists in
`configMirror.Namespace` instead: at this input the pass tracks and replicates
"b" (which lives in the ConfigMirror's namespace "ops") and ignores "a" (which
lives in `sourceNamespace` "src"), while the spec-modelled considered set is
exactly ["a"].  The `SourceNamespace` field, its doc comment ("the namespace to
watch for ConfigMaps") and the README architecture make the claim the evident
intent, so this is a code bug. -/
theorem C1_listing_namespace_bug :
    ((reconcile noFaults false 0 mirC1 [cmInSrc, cmInOps] []).mirror.status.replicatedConfigMaps.map
        (fun e => e.name) = ["b"]) ∧
    ((specConsideredSources mirC1 [cmInSrc, cmInOps]).map (fun c => c.name) = ["a"]) ∧
    getCM (reconcile noFaults false 0 mirC1 [cmInSrc, cmInOps] []).cluster "prod" "a" = none ∧
    (getCM (reconcile noFaults false 0 mirC1 [cmInSrc, cmInOps] []).cluster "prod" "b").isSome = true := by
  decide

/-! ### C2 -/

/-- C2 counterexample: `foreignC2` sits in target namespace "prod" under a
different owner's marker value ("other.owner" ≠ "ops.m") and its name collides
with matched source "x"; the claim says the pass never creates-over, updates or
deletes it, yet the pass overwrites its data and its marker (the update path of
`replicateConfigMap` has no ownership check). -/
theorem C2_update_clobbers_foreign_object :
    getKV foreignC2.labels ownerLabel = some "other.owner" ∧
    ownerLabelValue mirC2 = "ops.m" ∧
    getCM [srcC2, foreignC2] "prod" "x" = some foreignC2 ∧
    getCM (reconcile noFaults false 7 mirC2 [srcC2, foreignC2] []).cluster "prod" "x" ≠
      some foreignC2 ∧
    (getCM (reconcile noFaults false 7 mirC2 [srcC2, foreignC2] []).cluster "prod" "x").map
        (fun c => getKV c.labels ownerLabel) = some (some "ops.m") := by
  decide

/-! ### C3 -/

/-- C3 counterexample: a terminating pass for `mirC3` (database enabled, one
persisted record `rowC3`) succeeds, removes the finalizer and deletes the
derived copy — but the persisted record survives untouched: the cleanup path
contains no database call, so "zero persisted database records remain" is false. -/
theorem C3_persisted_record_survives_cleanup :
    (reconcile noFaults true 9 mirC3 [srcC3, replicaC3] [rowC3]).result =
      .ok { requeueAfter := 0 } ∧
    (reconcile noFaults true 9 mirC3 [srcC3, replicaC3] [rowC3]).mirror.finalizers.contains
        finalizerName = false ∧
    (reconcile noFaults true 9 mirC3 [srcC3, replicaC3] [rowC3]).cluster = [srcC3] ∧
    (reconcile noFaults true 9 mirC3 [srcC3, replicaC3] [rowC3]).rows = [rowC3] ∧
    [rowC3] ≠ ([] : List DBRecord) := by
  decide

/-! ### C4 -/

/-- C4 counterexample: a status write hitting a version conflict
(`statusWriteFail`) is silently dropped — the API server keeps the old status
while the in-memory object holds the new one, and no refetch/reapply attempt
exists in `updateStatus` (the error of the single `r.Status().Update` call is
discarded), contradicting "retried by refetching and reapplying" and "never
silently dropped". -/
theorem C4_conflicting_status_write_dropped :
    (updateStatus { noFaults with statusWriteFail := true } 5 emptyStatus mirC2
        "True" "R" "msg").snd = emptyStatus ∧
    (updateStatus { noFaults with statusWriteFail := true } 5 emptyStatus mirC2
        "True" "R" "msg").fst.status ≠ emptyStatus := by
  decide

/-! ### C5 -/

/-- C5 counterexample: with `mirC5` (target namespace = the listed-from
namespace, selector `DoesNotExist(ownerLabel)`) and source `cmC5`, pass one
stamps the ownership marker onto the source object; in pass two the object no
longer matches, is treated as an orphan and deleted.  Two consecutive passes
with no external change (same clock) thus differ in derived-object state and in
the tracked list, not merely in timestamps. -/
theorem C5_passes_disagree :
    ((reconcile noFaults false 0 mirC5 [cmC5] []).cluster ≠
      (reconcile noFaults false 0
        (reconcile noFaults false 0 mirC5 [cmC5] []).mirror
        (reconcile noFaults false 0 mirC5 [cmC5] []).cluster
        (reconcile noFaults false 0 mirC5 [cmC5] []).rows).cluster) ∧
    ((reconcile noFaults false 0 mirC5 [cmC5] []).mirror.status.replicatedConfigMaps.map
        (fun e => e.name) = ["a"]) ∧
    ((reconcile noFaults false 0
        (reconcile noFaults false 0 mirC5 [cmC5] []).mirror
        (reconcile noFaults false 0 mirC5 [cmC5] []).cluster
        (reconcile noFaults false 0 mirC5 [cmC5] []).rows).mirror.status.replicatedConfigMaps.map
        (fun e => e.name) = []) := by
  decide

/-- C4 (amended): a status write that fails (e.g. with a stored-resource-version
conflict) is issued exactly once and its error is discarded: the stored status
is left unchanged (the write is silently dropped, with no refetch-and-reapply
retry), a successful write stores the in-memory status, and a status-write
failure never alters the pass's returned result, its cluster effects or its
persisted rows (it never fatally aborts the pass). -/
theorem C4_status_write_dropped_without_retry_nonfatal (f : Faults) (hasDB : Bool)
    (now : Nat) (m : ConfigMirror) (cluster : List ConfigMap) (rows : List DBRecord)
    (ps : ConfigMirrorStatus) (cstatus reason message : String) :
    (updateStatus { f with statusWriteFail := true } now ps m cstatus reason message).snd
        = ps ∧
    (updateStatus { f with statusWriteFail := false } now ps m cstatus reason message).snd
        = (updateStatus { f with statusWriteFail := false } now ps m
            cstatus reason message).fst.status ∧
    (reconcileActive { f with statusWriteFail := true } hasDB now m cluster rows).result =
      (reconcileActive { f with statusWriteFail := false } hasDB now m cluster rows).result ∧
    (reconcileActive { f with statusWriteFail := true } hasDB now m cluster rows).cluster =
      (reconcileActive { f with statusWriteFail := false } hasDB now m cluster rows).cluster ∧
    (reconcileActive { f with statusWriteFail := true } hasDB now m cluster rows).rows =
      (reconcileActive { f with statusWriteFail := false } hasDB now m cluster rows).rows := by
  refine ⟨rfl, rfl, ?_, ?_, ?_⟩
  · exact (reconcileActive_congr3 { f with statusWriteFail := true }
      { f with statusWriteFail := false } hasDB now m cluster rows rfl rfl rfl).1
  · exact (reconcileActive_congr3 { f with statusWriteFail := true }
      { f with statusWriteFail := false } hasDB now m cluster rows rfl rfl rfl).2.1
  · exact reconcileActive_rows_congr { f with statusWriteFail := true }
      { f with statusWriteFail := false } hasDB now m cluster rows rfl rfl rfl

/-! ### C8 -/

/-- C8: for a non-terminating pass, changing only the database faults (save,
delete, ping — `dbs`, `dbd`, `dbp` arbitrary) changes neither the returned
result nor any derived-object create/update/delete (the cluster), and changes
the in-memory and persisted statuses at most in their `databaseStatus` field. -/
theorem C8_persistence_failures_nonfatal (f : Faults) (dbs dbd : String → Bool)
    (dbp : Bool) (hasDB : Bool) (now : Nat) (m : ConfigMirror)
    (cluster : List ConfigMap) (rows : List DBRecord) :
    (reconcileActive f hasDB now m cluster rows).result =
      (reconcileActive { f with dbSaveFail := dbs, dbDeleteFail := dbd, dbPingFail := dbp }
        hasDB now m cluster rows).result ∧
    (reconcileActive f hasDB now m cluster rows).cluster =
      (reconcileActive { f with dbSaveFail := dbs, dbDeleteFail := dbd, dbPingFail := dbp }
        hasDB now m cluster rows).cluster ∧
    eraseDBStatus (reconcileActive f hasDB now m cluster rows).mirror.status =
      eraseDBStatus ((reconcileActive
        { f with dbSaveFail := dbs, dbDeleteFail := dbd, dbPingFail := dbp }
        hasDB now m cluster rows).mirror.status) ∧
    eraseDBStatus (reconcileActive f hasDB now m cluster rows).persistedStatus =
      eraseDBStatus ((reconcileActive
        { f with dbSaveFail := dbs, dbDeleteFail := dbd, dbPingFail := dbp }
        hasDB now m cluster rows).persistedStatus) := by
  exact reconcileActive_congr f
    { f with dbSaveFail := dbs, dbDeleteFail := dbd, dbPingFail := dbp }
    hasDB now m cluster rows rfl rfl rfl rfl

/-! ### C10 -/

/-- C10: when `replicateConfigMap` finds an existing target object, the pass
updates exactly that object, setting `data`, `binaryData` and the single
ownership-marker label entry; its name, namespace, annotations and every other
label key keep their values, and every other stored object is untouched. -/
theorem C10_update_modifies_only_payload_and_marker (f : Faults)
    (cluster : List ConfigMap) (source : ConfigMap) (t : String)
    (owner : ConfigMirror) (ex : ConfigMap)
    (hfault : f.replicateFail source.name t = false)
    (hget : getCM cluster t source.name = some ex) :
    replicateConfigMap f cluster source t owner =
      .ok (updateCM cluster
        { ex with data := source.data, binaryData := source.binaryData,
                  labels := setKV ex.labels ownerLabel (ownerLabelValue owner) }) ∧
    ({ ex with data := source.data, binaryData := source.binaryData,
               labels := setKV ex.labels ownerLabel (ownerLabelValue owner) } :
        ConfigMap).name = ex.name ∧
    ({ ex with data := source.data, binaryData := source.binaryData,
               labels := setKV ex.labels ownerLabel (ownerLabelValue owner) } :
        ConfigMap).nspace = ex.nspace ∧
    ({ ex with data := source.data, binaryData := source.binaryData,
               labels := setKV ex.labels ownerLabel (ownerLabelValue owner) } :
        ConfigMap).annotations = ex.annotations ∧
    getKV (setKV ex.labels ownerLabel (ownerLabelValue owner)) ownerLabel =
      some (ownerLabelValue owner) ∧
    (∀ k, k ≠ ownerLabel →
      getKV (setKV ex.labels ownerLabel (ownerLabelValue owner)) k =
        getKV ex.labels k) ∧
    (∀ ns n, ¬(ns = t ∧ n = source.name) →
      getCM (updateCM cluster
        { ex with data := source.data, binaryData := source.binaryData,
                  labels := setKV ex.labels ownerLabel (ownerLabelValue owner) }) ns n =
        getCM cluster ns n) := by
  obtain ⟨hmem, hns, hn⟩ := getCM_some cluster t source.name ex hget
  refine ⟨?_, rfl, rfl, rfl, getKV_setKV_same _ _ _, ?_, ?_⟩
  · simp only [replicateConfigMap, hfault, Bool.false_eq_true, if_false, hget]
  · intro k hk
    exact getKV_setKV_ne ex.labels ownerLabel (ownerLabelValue owner) k hk
  · intro ns n hkey
    apply getCM_updateCM_ne
    simp only [hns, hn]
    intro hc
    exact hkey ⟨hc.1.symm ▸ rfl, hc.2.symm ▸ rfl⟩

theorem deleteReplicatedConfigMap_ok (f : Faults) (cluster : List ConfigMap)
    (n t : String) (owner : ConfigMirror) (cluster' : List ConfigMap)
    (h : deleteReplicatedConfigMap f cluster n t owner = .ok cluster') :
    cluster' = cluster ∨ cluster' = deleteCM cluster t n := by
  unfold deleteReplicatedConfigMap at h
  split at h
  · exact absurd h (by simp)
  · split at h
    · exact Or.inl (Except.ok.inj h).symm
    · split at h
      · exact Or.inr (Except.ok.inj h).symm
      · exact Or.inl (Except.ok.inj h).symm

theorem deleteReplicatedConfigMap_preserves_other_ns (f : Faults)
    (cluster : List ConfigMap) (n t : String) (owner : ConfigMirror)
    (cm : ConfigMap) (hmem : cm ∈ cluster) (hns : cm.nspace ≠ t) :
    ∀ cluster', deleteReplicatedConfigMap f cluster n t owner = .ok cluster' →
      cm ∈ cluster' := by
  intro cluster' h
  rcases deleteReplicatedConfigMap_ok f cluster n t owner cluster' h with rfl | rfl
  · exact hmem
  · exact (mem_deleteCM cluster t n cm).mpr ⟨hmem, fun hk => hns hk.1⟩

theorem deleteOrphanFromTargets_preserves_other_ns (f : Faults) (m : ConfigMirror)
    (n : String) (cm : ConfigMap) :
    ∀ (ts : List String) (cluster : List ConfigMap), cm ∈ cluster → cm.nspace ∉ ts →
      cm ∈ deleteOrphanFromTargets f m n cluster ts := by
  intro ts
  induction ts with
  | nil => intro cluster hmem _; exact hmem
  | cons t rest ih =>
    intro cluster hmem hns
    have hnt : cm.nspace ≠ t := fun hc => hns (hc ▸ List.mem_cons_self _ _)
    have hrest : cm.nspace ∉ rest := fun hc => hns (List.mem_cons_of_mem _ hc)
    simp only [deleteOrphanFromTargets]
    cases hrep : deleteReplicatedConfigMap f cluster n t m with
    | error e => exact ih cluster hmem hrest
    | ok cluster' =>
      exact ih cluster'
        (deleteReplicatedConfigMap_preserves_other_ns f cluster n t m cm hmem hnt cluster' hrep)
        hrest

/-- C9: the orphan-cleanup phase attempts deletion only inside the namespaces
currently listed in `spec.targetNamespaces`: any stored object in a namespace
outside that list survives the phase unchanged, and the persisted rows are
changed only when database persistence is currently enabled. -/
theorem C9_orphan_cleanup_only_current_targets (f : Faults) (hasDB : Bool)
    (m : ConfigMirror) (names : List String) (prevs : List ReplicatedConfigMap)
    (cluster : List ConfigMap) (rows : List DBRecord) :
    (∀ cm ∈ cluster, cm.nspace ∉ m.spec.targetNamespaces →
      cm ∈ (cleanupOrphans f hasDB m names cluster rows prevs).fst) ∧
    (dbEnabled hasDB m = false →
      (cleanupOrphans f hasDB m names cluster rows prevs).snd = rows) := by
  induction prevs generalizing cluster rows with
  | nil => exact ⟨fun cm hmem _ => hmem, fun _ => rfl⟩
  | cons prev rest ih =>
    constructor
    · intro cm hmem hns
      simp only [cleanupOrphans]
      by_cases hn : names.contains prev.name
      · simp only [hn, if_true]
        exact (ih _ _).1 cm hmem hns
      · simp only [hn, if_false, Bool.false_eq_true]
        exact (ih _ _).1 cm
          (deleteOrphanFromTargets_preserves_other_ns f m prev.name cm
            m.spec.targetNamespaces cluster hmem hns) hns
    · intro hdb
      simp only [cleanupOrphans]
      by_cases hn : names.contains prev.name
      · simp only [hn, if_true]
        exact (ih _ _).2 hdb
      · simp only [hn, if_false, Bool.false_eq_true, hdb, Bool.false_and, if_false]
        exact (ih _ _).2 hdb

/-- Witness for C10 at a concrete input: the existing target object is found,
and an uninvolved label key ("note") keeps its value through the update. -/
theorem C10_witness :
    getCM [srcC2, foreignC2] "prod" srcC2.name = some foreignC2 ∧
    getKV (setKV foreignC2.labels ownerLabel (ownerLabelValue mirC2)) "note" =
      getKV foreignC2.labels "note" :=
  ⟨by decide,
   (C10_update_modifies_only_payload_and_marker noFaults [srcC2, foreignC2] srcC2
      "prod" mirC2 foreignC2 rfl (by decide)).2.2.2.2.2.1 "note" (by decide)⟩

/-- Witness for C9 at a concrete input: an object outside the current target
namespaces survives orphan cleanup, and with persistence disabled the rows are
untouched. -/
theorem C9_witness :
    srcC2 ∈ (cleanupOrphans noFaults false mirC2 [] [srcC2] [rowC3]
      [{ name := "x", sourceNamespace := "ops", targets := ["prod"],
         lastSyncTime := none }]).fst ∧
    (cleanupOrphans noFaults false mirC2 [] [srcC2] [rowC3]
      [{ name := "x", sourceNamespace := "ops", targets := ["prod"],
         lastSyncTime := none }]).snd = [rowC3] :=
  ⟨(C9_orphan_cleanup_only_current_targets noFaults false mirC2 []
      [{ name := "x", sourceNamespace := "ops", targets := ["prod"],
         lastSyncTime := none }] [srcC2] [rowC3]).1 srcC2 (by decide) (by decide),
   (C9_orphan_cleanup_only_current_targets noFaults false mirC2 []
      [{ name := "x", sourceNamespace := "ops", targets := ["prod"],
         lastSyncTime := none }] [srcC2] [rowC3]).2 (by decide)⟩

/-! ### C2 (amended) and C3 (amended): marker-guarded deletion and cleanup scope -/

theorem mem_listOwned (cluster : List ConfigMap) (ns val : String) (cm : ConfigMap) :
    cm ∈ listOwned cluster ns val ↔
      cm ∈ cluster ∧ cm.nspace = ns ∧ getKV cm.labels ownerLabel = some val := by
  induction cluster with
  | nil => simp [listOwned]
  | cons c rest ih =>
    by_cases hc : c.nspace = ns ∧ getKV c.labels ownerLabel = some val
    · simp only [listOwned, if_pos hc, List.mem_cons, ih]
      constructor
      · rintro (rfl | ⟨hm, hk⟩)
        · exact ⟨Or.inl rfl, hc⟩
        · exact ⟨Or.inr hm, hk⟩
      · rintro ⟨rfl | hm, hk⟩
        · exact Or.inl rfl
        · exact Or.inr ⟨hm, hk⟩
    · simp only [listOwned, if_neg hc, List.mem_cons, ih]
      constructor
      · rintro ⟨hm, hk⟩
        exact ⟨Or.inr hm, hk⟩
      · rintro ⟨rfl | hm, hk⟩
        · exact absurd hk hc
        · exact ⟨hm, hk⟩

theorem WF_unique (cluster : List ConfigMap) (hwf : WellFormed cluster)
    (a b : ConfigMap) (ha : a ∈ cluster) (hb : b ∈ cluster)
    (hns : a.nspace = b.nspace) (hn : a.name = b.name) : a = b := by
  induction cluster with
  | nil => simp at ha
  | cons c rest ih =>
    have hwf' : WellFormed rest := (List.pairwise_cons.mp hwf).2
    have hhead := (List.pairwise_cons.mp hwf).1
    rcases List.mem_cons.mp ha with ha' | ha' <;> rcases List.mem_cons.mp hb with hb' | hb'
    · rw [ha', hb']
    · rw [ha'] at hns hn
      exact absurd ⟨hns, hn⟩ (hhead b hb')
    · rw [hb'] at hns hn
      exact absurd ⟨hns.symm, hn.symm⟩ (hhead a ha')
    · exact ih hwf' ha' hb' 

theorem cleanupDeleteList_subset (f : Faults) (ns : String) :
    ∀ (items cluster : List ConfigMap) (cm : ConfigMap),
      cm ∈ (cleanupDeleteList f ns cluster items).fst → cm ∈ cluster := by
  intro items
  induction items with
  | nil => intro cluster cm h; exact h
  | cons it rest ih =>
    intro cluster cm h
    simp only [cleanupDeleteList] at h
    by_cases hfault : f.cleanupDeleteFail it.name ns
    · rw [if_pos hfault] at h
      exact h
    · rw [if_neg hfault] at h
      exact deleteCM_subset cluster ns it.name cm (ih _ cm h)

theorem cleanupDeleteList_preserves_of_keys (f : Faults) (ns : String) (cm : ConfigMap) :
    ∀ (items cluster : List ConfigMap),
      (∀ it ∈ items, ¬(cm.nspace = ns ∧ cm.name = it.name)) →
      cm ∈ cluster → cm ∈ (cleanupDeleteList f ns cluster items).fst := by
  intro items
  induction items with
  | nil => intro cluster _ hmem; exact hmem
  | cons it rest ih =>
    intro cluster hkeys hmem
    simp only [cleanupDeleteList]
    by_cases hfault : f.cleanupDeleteFail it.name ns
    · rw [if_pos hfault]
      exact hmem
    · rw [if_neg hfault]
      refine ih _ (fun it' hit' => hkeys it' (List.mem_cons_of_mem it hit')) ?_
      exact (mem_deleteCM cluster ns it.name cm).mpr
        ⟨hmem, hkeys it (List.mem_cons_self _ _)⟩

theorem cleanupDeleteList_success_removes (f : Faults) (ns : String) :
    ∀ (items cluster : List ConfigMap),
      (cleanupDeleteList f ns cluster items).snd = none →
      ∀ it ∈ items, ∀ cm ∈ (cleanupDeleteList f ns cluster items).fst,
        ¬(cm.nspace = ns ∧ cm.name = it.name) := by
  intro items
  induction items with
  | nil => intro cluster _ it hit; simp at hit
  | cons it0 rest ih =>
    intro cluster hsucc it hit cm hcm
    simp only [cleanupDeleteList] at hsucc hcm
    by_cases hfault : f.cleanupDeleteFail it0.name ns
    · rw [if_pos hfault] at hsucc
      simp at hsucc
    · rw [if_neg hfault] at hsucc hcm
      rcases List.mem_cons.mp hit with rfl | hit
      · have hsub := cleanupDeleteList_subset f ns rest _ cm hcm
        exact ((mem_deleteCM cluster ns it.name cm).mp hsub).2
      · exact ih _ hsucc it hit cm hcm

theorem cleanupNamespaces_subset (f : Faults) (m : ConfigMirror) :
    ∀ (nss : List String) (cluster : List ConfigMap) (cm : ConfigMap),
      cm ∈ (cleanupNamespaces f m cluster nss).fst → cm ∈ cluster := by
  intro nss
  induction nss with
  | nil => intro cluster cm h; exact h
  | cons ns rest ih =>
    intro cluster cm h
    simp only [cleanupNamespaces] at h
    by_cases hlf : f.cleanupListFail ns
    · rw [if_pos hlf] at h
      exact h
    · rw [if_neg hlf] at h
      cases hdl : (cleanupDeleteList f ns cluster (listOwned cluster ns (ownerLabelValue m))).snd with
      | none =>
        rw [hdl] at h
        exact cleanupDeleteList_subset f ns _ cluster cm (ih _ cm h)
      | some e =>
        rw [hdl] at h
        exact cleanupDeleteList_subset f ns _ cluster cm h

theorem cleanupNamespaces_preserves_other_ns (f : Faults) (m : ConfigMirror)
    (cm : ConfigMap) :
    ∀ (nss : List String) (cluster : List ConfigMap),
      cm ∈ cluster → cm.nspace ∉ nss →
      cm ∈ (cleanupNamespaces f m cluster nss).fst := by
  intro nss
  induction nss with
  | nil => intro cluster hmem _; exact hmem
  | cons ns rest ih =>
    intro cluster hmem hns
    have hnthis : cm.nspace ≠ ns := fun hc => hns (hc ▸ List.mem_cons_self _ _)
    have hnrest : cm.nspace ∉ rest := fun hc => hns (List.mem_cons_of_mem _ hc)
    simp only [cleanupNamespaces]
    by_cases hlf : f.cleanupListFail ns
    · rw [if_pos hlf]
      exact hmem
    · rw [if_neg hlf]
      have hmem' : cm ∈ (cleanupDeleteList f ns cluster
          (listOwned cluster ns (ownerLabelValue m))).fst :=
        cleanupDeleteList_preserves_of_keys f ns cm _ cluster
          (fun it _ hk => hnthis hk.1) hmem
      cases hdl : (cleanupDeleteList f ns cluster (listOwned cluster ns (ownerLabelValue m))).snd with
      | none => exact ih _ hmem' hnrest
      | some e => exact hmem'

theorem cleanupNamespaces_preserves_unmarked (f : Faults) (m : ConfigMirror)
    (cluster0 : List ConfigMap) (hwf : WellFormed cluster0) (cm : ConfigMap)
    (hmark : getKV cm.labels ownerLabel ≠ some (ownerLabelValue m)) :
    ∀ (nss : List String) (cluster : List ConfigMap),
      (∀ x ∈ cluster, x ∈ cluster0) → cm ∈ cluster →
      cm ∈ (cleanupNamespaces f m cluster nss).fst := by
  intro nss
  induction nss with
  | nil => intro cluster _ hmem; exact hmem
  | cons ns rest ih =>
    intro cluster hsub hmem
    simp only [cleanupNamespaces]
    by_cases hlf : f.cleanupListFail ns
    · rw [if_pos hlf]
      exact hmem
    · rw [if_neg hlf]
      have hkeys : ∀ it ∈ listOwned cluster ns (ownerLabelValue m),
          ¬(cm.nspace = ns ∧ cm.name = it.name) := by
        intro it hit hk
        rcases (mem_listOwned cluster ns (ownerLabelValue m) it).mp hit with
          ⟨hitmem, hitns, hitmark⟩
        have : cm = it := WF_unique cluster0 hwf cm it (hsub cm hmem) (hsub it hitmem)
          (hk.1.trans hitns.symm) hk.2
        exact hmark (this ▸ hitmark)
      have hmem' : cm ∈ (cleanupDeleteList f ns cluster
          (listOwned cluster ns (ownerLabelValue m))).fst :=
        cleanupDeleteList_preserves_of_keys f ns cm _ cluster hkeys hmem
      have hsub' : ∀ x ∈ (cleanupDeleteList f ns cluster
          (listOwned cluster ns (ownerLabelValue m))).fst, x ∈ cluster0 :=
        fun x hx => hsub x (cleanupDeleteList_subset f ns _ cluster x hx)
      cases hdl : (cleanupDeleteList f ns cluster (listOwned cluster ns (ownerLabelValue m))).snd with
      | none => exact ih _ hsub' hmem'
      | some e => exact hmem'

theorem cleanupNamespaces_success_clean (f : Faults) (m : ConfigMirror) :
    ∀ (nss : List String) (cluster : List ConfigMap),
      (cleanupNamespaces f m cluster nss).snd = none →
      ∀ ns ∈ nss, ∀ cm ∈ (cleanupNamespaces f m cluster nss).fst,
        cm.nspace = ns → getKV cm.labels ownerLabel ≠ some (ownerLabelValue m) := by
  intro nss
  induction nss with
  | nil => intro cluster _ ns hns; simp at hns
  | cons ns0 rest ih =>
    intro cluster hsucc ns hns cm hcm hcmns
    simp only [cleanupNamespaces] at hsucc hcm
    by_cases hlf : f.cleanupListFail ns0
    · rw [if_pos hlf] at hsucc
      simp at hsucc
    · rw [if_neg hlf] at hsucc hcm
      cases hdl : (cleanupDeleteList f ns0 cluster (listOwned cluster ns0 (ownerLabelValue m))).snd with
      | some e =>
        rw [hdl] at hsucc
        simp at hsucc
      | none =>
        rw [hdl] at hsucc hcm
        rcases List.mem_cons.mp hns with rfl | hns
        · intro hmark
          have hmemdl : cm ∈ (cleanupDeleteList f ns cluster
              (listOwned cluster ns (ownerLabelValue m))).fst :=
            cleanupNamespaces_subset f m rest _ cm hcm
          have hmemcl : cm ∈ cluster := cleanupDeleteList_subset f ns _ cluster cm hmemdl
          have hit : cm ∈ listOwned cluster ns (ownerLabelValue m) :=
            (mem_listOwned cluster ns (ownerLabelValue m) cm).mpr ⟨hmemcl, hcmns, hmark⟩
          exact cleanupDeleteList_success_removes f ns _ cluster hdl cm hit cm hmemdl
            ⟨hcmns, rfl⟩
        · exact ih _ hsucc ns hns cm hcm hcmns

theorem deleteReplicatedConfigMap_ok_marked (f : Faults) (cluster : List ConfigMap)
    (n t : String) (owner : ConfigMirror) (cluster' : List ConfigMap)
    (h : deleteReplicatedConfigMap f cluster n t owner = .ok cluster') :
    cluster' = cluster ∨
      (∃ c0, getCM cluster t n = some c0 ∧
        getKV c0.labels ownerLabel = some (ownerLabelValue owner) ∧
        cluster' = deleteCM cluster t n) := by
  unfold deleteReplicatedConfigMap at h
  split at h
  · exact absurd h (by simp)
  · split at h
    · exact Or.inl (Except.ok.inj h).symm
    · next c0 hget =>
      split at h
      · next hmark => exact Or.inr ⟨c0, hget, hmark, (Except.ok.inj h).symm⟩
      · exact Or.inl (Except.ok.inj h).symm

theorem contains_filter_ne (l : List String) (s : String) :
    (l.filter (fun x => x ≠ s)).contains s = false := by
  induction l with
  | nil => rfl
  | cons x rest ih =>
    by_cases hx : x = s
    · simp [List.filter, hx, ih]
    · simp only [List.filter, hx]
      simp only [decide_not, decide_eq_true_eq]
      simp [List.contains_cons, hx, ih, Ne.symm hx]

/-- C2 (amended): an object in a target namespace that lacks the ownership
marker, or carries a different owner's marker value, is never **deleted** by a
pass for that owner: both delete paths — the orphan delete and the terminating
cleanup — are marker-guarded and leave such an object in place.  (The
create-or-update path, by contrast, does overwrite such an object on exact
name collision — see the counterexample.) -/
theorem C2_delete_paths_marker_guarded (f : Faults) (cluster : List ConfigMap)
    (n t : String) (owner : ConfigMirror) (cm : ConfigMap)
    (hwf : WellFormed cluster) (hmem : cm ∈ cluster)
    (hmark : getKV cm.labels ownerLabel ≠ some (ownerLabelValue owner)) :
    (∀ cluster', deleteReplicatedConfigMap f cluster n t owner = .ok cluster' →
      cm ∈ cluster') ∧
    cm ∈ (cleanupConfigMaps f cluster owner).fst := by
  constructor
  · intro cluster' h
    rcases deleteReplicatedConfigMap_ok_marked f cluster n t owner cluster' h with
      rfl | ⟨c0, hget, hmark0, rfl⟩
    · exact hmem
    · refine (mem_deleteCM cluster t n cm).mpr ⟨hmem, ?_⟩
      intro hk
      obtain ⟨hc0mem, hc0ns, hc0n⟩ := getCM_some cluster t n c0 hget
      have : cm = c0 := WF_unique cluster hwf cm c0 hmem hc0mem
        (hk.1.trans hc0ns.symm) (hk.2.trans hc0n.symm)
      exact hmark (this ▸ hmark0)
  · exact cleanupNamespaces_preserves_unmarked f owner cluster hwf cm hmark
      owner.spec.targetNamespaces cluster (fun x hx => hx) hmem

/-- Witness for C2's amended theorem: the unmarked source object survives the
terminating cleanup of owner mirC2. -/
theorem C2_amended_witness :
    srcC2 ∈ (cleanupConfigMaps noFaults [srcC2, foreignC2] mirC2).fst :=
  (C2_delete_paths_marker_guarded noFaults [srcC2, foreignC2] "x" "prod" mirC2 srcC2
    (by decide) (by decide) (by decide)).2

/-- C3 (amended): for a Terminating ConfigMirror whose cleanup succeeds and
whose finalizer-removing update succeeds, the pass removes the finalizer and
returns success with no requeue; afterwards no object bearing this owner's
marker remains in any of the spec's target namespaces; every object without the
marker — in particular every source object — and every object outside the
target namespaces survives; and the persisted database rows are **not**
deleted: the terminating path contains no database call, so the rows are
returned unchanged. -/
theorem C3_finalizer_cleanup_scope (f : Faults) (hasDB : Bool) (now : Nat)
    (m : ConfigMirror) (cluster : List ConfigMap) (rows : List DBRecord)
    (hwf : WellFormed cluster)
    (hterm : m.deletionTimestampZero = false)
    (hfin : m.finalizers.contains finalizerName = true)
    (hupd : f.mirrorUpdateFail = false)
    (hok : (cleanupConfigMaps f cluster m).snd = none) :
    (reconcile f hasDB now m cluster rows).result = .ok { requeueAfter := 0 } ∧
    (reconcile f hasDB now m cluster rows).mirror.finalizers.contains finalizerName
      = false ∧
    (∀ cm ∈ (reconcile f hasDB now m cluster rows).cluster,
      cm.nspace ∈ m.spec.targetNamespaces →
      getKV cm.labels ownerLabel ≠ some (ownerLabelValue m)) ∧
    (∀ cm ∈ cluster, getKV cm.labels ownerLabel ≠ some (ownerLabelValue m) →
      cm ∈ (reconcile f hasDB now m cluster rows).cluster) ∧
    (∀ cm ∈ cluster, cm.nspace ∉ m.spec.targetNamespaces →
      cm ∈ (reconcile f hasDB now m cluster rows).cluster) ∧
    (reconcile f hasDB now m cluster rows).rows = rows := by
  simp only [reconcile, hterm, Bool.false_eq_true, if_false, hfin, if_true, hok, hupd]
  refine ⟨by trivial, ?_, ?_, ?_, ?_, by trivial⟩
  · exact contains_filter_ne m.finalizers finalizerName
  · intro cm hcm hns
    exact cleanupNamespaces_success_clean f m m.spec.targetNamespaces cluster hok
      cm.nspace hns cm hcm rfl
  · intro cm hcm hmark
    exact cleanupNamespaces_preserves_unmarked f m cluster hwf cm hmark
      m.spec.targetNamespaces cluster (fun x hx => hx) hcm
  · intro cm hcm hns
    exact cleanupNamespaces_preserves_other_ns f m cm m.spec.targetNamespaces cluster
      hcm hns

/-- Witness for C3's amended theorem at the concrete terminating scenario:
success with no requeue and untouched rows. -/
theorem C3_amended_witness :
    (reconcile noFaults true 9 mirC3 [srcC3, replicaC3] [rowC3]).result =
      .ok { requeueAfter := 0 } ∧
    (reconcile noFaults true 9 mirC3 [srcC3, replicaC3] [rowC3]).rows = [rowC3] :=
  ⟨(C3_finalizer_cleanup_scope noFaults true 9 mirC3 [srcC3, replicaC3] [rowC3]
      (by decide) (by decide) (by decide) (by decide) (by decide)).1,
   (C3_finalizer_cleanup_scope noFaults true 9 mirC3 [srcC3, replicaC3] [rowC3]
      (by decide) (by decide) (by decide) (by decide) (by decide)).2.2.2.2.2⟩

/-! ### C7 -/

theorem replicateToTargets_fst (f : Faults) (owner : ConfigMirror) (s : ConfigMap) :
    ∀ (ts : List String) (cluster : List ConfigMap),
      (replicateToTargets f owner s cluster ts).fst =
        ts.filter (fun t => !(f.replicateFail s.name t)) := by
  intro ts
  induction ts with
  | nil => intro cluster; rfl
  | cons t rest ih =>
    intro cluster
    by_cases hf : f.replicateFail s.name t
    · simp only [replicateToTargets, replicateConfigMap, hf, if_true, List.filter_cons,
        Bool.not_true]
      exact ih cluster
    · simp only [replicateToTargets, replicateConfigMap, hf, Bool.false_eq_true, if_false,
        List.filter_cons, Bool.not_false]
      cases hg : getCM cluster t s.name with
      | none => simp [hg, ih]
      | some ex => simp [hg, ih]

theorem processSources_replicated (f : Faults) (hasDB : Bool) (now : Nat)
    (m : ConfigMirror) :
    ∀ (items : List ConfigMap) (st : PassState),
      (processSources f hasDB now m st items).replicated =
        st.replicated ++ items.map (entryFor f now m) := by
  intro items
  induction items with
  | nil => intro st; simp [processSources]
  | cons cm rest ih =>
    intro st
    simp only [processSources, ih, List.map_cons]
    rw [List.append_cons st.replicated _ (List.map (entryFor f now m) rest)]
    congr 2
    simp only [entryFor, replicateToTargets_fst]

/-- C7: a pass whose selector compiles and whose listing succeeds returns
success (the periodic requeue) no matter which per-target replicate calls fail,
and each matched object's status entry records exactly the target namespaces
whose replicate call succeeded — failed targets are omitted, the others are
still processed and recorded. -/
theorem C7_partial_failure_containment (f : Faults) (hasDB : Bool) (now : Nat)
    (m : ConfigMirror) (cluster : List ConfigMap) (rows : List DBRecord)
    (sel : Selector)
    (hsel : labelSelectorAsSelector m.spec.selector = .ok sel)
    (hlist : f.listFail = false) :
    (reconcileActive f hasDB now m cluster rows).result =
      .ok { requeueAfter := requeuePeriod } ∧
    (reconcileActive f hasDB now m cluster rows).mirror.status.replicatedConfigMaps =
      (listCMs cluster m.nspace sel).map (entryFor f now m) := by
  simp only [reconcileActive, hsel, hlist, Bool.false_eq_true, if_false, updateStatus]
  refine ⟨by trivial, ?_⟩
  simp [processSources_replicated]

/-- Witness for C7: with a fault taking out exactly target "t2" of ["t1", "t2",
"t3"], the pass still succeeds and records ["t1", "t3"] for the matched object. -/
theorem C7_witness :
    (reconcileActive
      { noFaults with replicateFail := fun n t => n = "a" ∧ t = "t2" } false 3
      mirC7 [cmC7] []).result = .ok { requeueAfter := requeuePeriod } ∧
    (reconcileActive
      { noFaults with replicateFail := fun n t => n = "a" ∧ t = "t2" } false 3
      mirC7 [cmC7] []).mirror.status.replicatedConfigMaps =
      [{ name := "a", sourceNamespace := "ops", targets := ["t1", "t3"],
         lastSyncTime := some 3 }] := by
  have h := C7_partial_failure_containment
    { noFaults with replicateFail := fun n t => n = "a" ∧ t = "t2" } false 3
    mirC7 [cmC7] [] (.reqs [{ key := "app", op := "in", values := ["x"] }])
    (by decide) rfl
  exact ⟨h.1, by rw [h.2]; decide⟩

/-! ### Well-formedness preservation, sublists, and orphan clearing -/

theorem deleteCM_sublist (cluster : List ConfigMap) (ns n : String) :
    List.Sublist (deleteCM cluster ns n) cluster := by
  induction cluster with
  | nil => simp [deleteCM]
  | cons c rest ih =>
    by_cases hc : c.nspace = ns ∧ c.name = n
    · simp only [deleteCM, if_pos hc]
      exact ih.cons c
    · simp only [deleteCM, if_neg hc]
      exact ih.cons₂ c

theorem WF_deleteCM (cluster : List ConfigMap) (ns n : String)
    (hwf : WellFormed cluster) : WellFormed (deleteCM cluster ns n) :=
  hwf.sublist (deleteCM_sublist cluster ns n)

theorem updateCM_eq_map (cluster : List ConfigMap) (cm : ConfigMap) :
    updateCM cluster cm = cluster.map
      (fun c => if c.nspace = cm.nspace ∧ c.name = cm.name then cm else c) := by
  induction cluster with
  | nil => rfl
  | cons c rest ih => simp only [updateCM, List.map_cons, ih]

theorem WF_updateCM (cluster : List ConfigMap) (cm : ConfigMap)
    (hwf : WellFormed cluster) : WellFormed (updateCM cluster cm) := by
  rw [updateCM_eq_map]
  unfold WellFormed
  rw [List.pairwise_map]
  refine hwf.imp_of_mem ?_
  intro a b _ _ hab
  by_cases ha : a.nspace = cm.nspace ∧ a.name = cm.name <;>
    by_cases hb : b.nspace = cm.nspace ∧ b.name = cm.name
  · simp only [if_pos ha, if_pos hb]
    intro hk
    exact hab ⟨ha.1.trans hb.1.symm, ha.2.trans hb.2.symm⟩
  · simp only [if_pos ha, if_neg hb]
    intro hk
    exact hab ⟨ha.1.trans hk.1, ha.2.trans hk.2⟩
  · simp only [if_neg ha, if_pos hb]
    intro hk
    exact hab ⟨hk.1.trans hb.1.symm, hk.2.trans hb.2.symm⟩
  · simp only [if_neg ha, if_neg hb]
    exact hab

theorem WF_createCM (cluster : List ConfigMap) (cm : ConfigMap)
    (hwf : WellFormed cluster) (habs : getCM cluster cm.nspace cm.name = none) :
    WellFormed (createCM cluster cm) := by
  unfold WellFormed createCM
  rw [List.pairwise_append]
  refine ⟨hwf, List.pairwise_singleton _ _, ?_⟩
  intro a ha b hb
  rw [List.mem_singleton.mp hb]
  exact getCM_none cluster cm.nspace cm.name habs a ha

theorem WF_replicateConfigMap (f : Faults) (cluster : List ConfigMap)
    (s : ConfigMap) (t : String) (owner : ConfigMirror) (cluster' : List ConfigMap)
    (hwf : WellFormed cluster)
    (h : replicateConfigMap f cluster s t owner = .ok cluster') :
    WellFormed cluster' := by
  unfold replicateConfigMap at h
  split at h
  · exact absurd h (by simp)
  · split at h
    · next hget =>
      cases Except.ok.inj h
      exact WF_createCM cluster _ hwf hget
    · next ex hget =>
      cases Except.ok.inj h
      exact WF_updateCM cluster _ hwf

theorem WF_replicateToTargets (f : Faults) (owner : ConfigMirror) (s : ConfigMap) :
    ∀ (ts : List String) (cluster : List ConfigMap), WellFormed cluster →
      WellFormed (replicateToTargets f owner s cluster ts).snd := by
  intro ts
  induction ts with
  | nil => intro cluster hwf; exact hwf
  | cons t rest ih =>
    intro cluster hwf
    simp only [replicateToTargets]
    cases hrep : replicateConfigMap f cluster s t owner with
    | error e => exact ih cluster hwf
    | ok cluster' =>
      exact ih cluster' (WF_replicateConfigMap f cluster s t owner cluster' hwf hrep)

theorem WF_processSources (f : Faults) (hasDB : Bool) (now : Nat) (m : ConfigMirror) :
    ∀ (items : List ConfigMap) (st : PassState), WellFormed st.cluster →
      WellFormed (processSources f hasDB now m st items).cluster := by
  intro items
  induction items with
  | nil => intro st hwf; exact hwf
  | cons cm rest ih =>
    intro st hwf
    simp only [processSources]
    exact ih _ (WF_replicateToTargets f m cm m.spec.targetNamespaces st.cluster hwf)

theorem deleteReplicatedConfigMap_ok_sublist (f : Faults) (cluster : List ConfigMap)
    (n t : String) (owner : ConfigMirror) (cluster' : List ConfigMap)
    (h : deleteReplicatedConfigMap f cluster n t owner = .ok cluster') :
    List.Sublist cluster' cluster := by
  rcases deleteReplicatedConfigMap_ok f cluster n t owner cluster' h with rfl | rfl
  · exact List.Sublist.refl _
  · exact deleteCM_sublist cluster t n

theorem deleteOrphanFromTargets_sublist (f : Faults) (m : ConfigMirror) (n : String) :
    ∀ (ts : List String) (cluster : List ConfigMap),
      List.Sublist (deleteOrphanFromTargets f m n cluster ts) cluster := by
  intro ts
  induction ts with
  | nil => intro cluster; exact List.Sublist.refl cluster
  | cons t rest ih =>
    intro cluster
    simp only [deleteOrphanFromTargets]
    cases hrep : deleteReplicatedConfigMap f cluster n t m with
    | error e => exact ih cluster
    | ok cluster' =>
      exact (ih cluster').trans
        (deleteReplicatedConfigMap_ok_sublist f cluster n t m cluster' hrep)

theorem cleanupOrphans_fst_sublist (f : Faults) (hasDB : Bool) (m : ConfigMirror)
    (names : List String) :
    ∀ (prevs : List ReplicatedConfigMap) (cluster : List ConfigMap)
      (rows : List DBRecord),
      List.Sublist (cleanupOrphans f hasDB m names cluster rows prevs).fst cluster := by
  intro prevs
  induction prevs with
  | nil => intro cluster rows; exact List.Sublist.refl cluster
  | cons p rest ih =>
    intro cluster rows
    simp only [cleanupOrphans]
    by_cases hn : names.contains p.name
    · simp only [hn, if_true]
      exact ih cluster rows
    · simp only [hn, Bool.false_eq_true, if_false]
      exact (ih _ _).trans (deleteOrphanFromTargets_sublist f m p.name _ cluster)

theorem cleanupOrphans_snd_sublist (f : Faults) (hasDB : Bool) (m : ConfigMirror)
    (names : List String) :
    ∀ (prevs : List ReplicatedConfigMap) (cluster : List ConfigMap)
      (rows : List DBRecord),
      List.Sublist (cleanupOrphans f hasDB m names cluster rows prevs).snd rows := by
  intro prevs
  induction prevs with
  | nil => intro cluster rows; exact List.Sublist.refl rows
  | cons p rest ih =>
    intro cluster rows
    simp only [cleanupOrphans]
    by_cases hn : names.contains p.name
    · simp only [hn, if_true]
      exact ih cluster rows
    · simp only [hn, Bool.false_eq_true, if_false]
      by_cases hdb : dbEnabled hasDB m && !f.dbDeleteFail p.name
      · simp only [hdb, if_true]
        exact (ih _ _).trans (List.filter_sublist rows)
      · simp only [hdb, Bool.false_eq_true, if_false]
        exact ih _ _

theorem deleteReplicatedConfigMap_clears (f : Faults) (cluster : List ConfigMap)
    (n t : String) (owner : ConfigMirror)
    (hf : f.orphanDeleteFail n t = false) (hwf : WellFormed cluster) :
    ∃ cluster', deleteReplicatedConfigMap f cluster n t owner = .ok cluster' ∧
      ∀ cm ∈ cluster', ¬(cm.nspace = t ∧ cm.name = n ∧
        getKV cm.labels ownerLabel = some (ownerLabelValue owner)) := by
  unfold deleteReplicatedConfigMap
  rw [hf]
  simp only [Bool.false_eq_true, if_false]
  cases hget : getCM cluster t n with
  | none =>
    refine ⟨cluster, rfl, ?_⟩
    intro cm hcm hk
    exact getCM_none cluster t n hget cm hcm ⟨hk.1, hk.2.1⟩
  | some c0 =>
    dsimp only
    by_cases hmark : getKV c0.labels ownerLabel = some (ownerLabelValue owner)
    · rw [if_pos hmark]
      refine ⟨deleteCM cluster t n, rfl, ?_⟩
      intro cm hcm hk
      exact ((mem_deleteCM cluster t n cm).mp hcm).2 ⟨hk.1, hk.2.1⟩
    · rw [if_neg hmark]
      refine ⟨cluster, rfl, ?_⟩
      intro cm hcm hk
      obtain ⟨hc0mem, hc0ns, hc0n⟩ := getCM_some cluster t n c0 hget
      have : cm = c0 := WF_unique cluster hwf cm c0 hcm hc0mem
        (hk.1.trans hc0ns.symm) (hk.2.1.trans hc0n.symm)
      exact hmark (this ▸ hk.2.2)

theorem deleteOrphanFromTargets_clears (f : Faults) (m : ConfigMirror) (n : String)
    (hf : ∀ t, f.orphanDeleteFail n t = false) :
    ∀ (ts : List String) (cluster : List ConfigMap), WellFormed cluster →
      ∀ t ∈ ts, ∀ cm ∈ deleteOrphanFromTargets f m n cluster ts,
        ¬(cm.nspace = t ∧ cm.name = n ∧
          getKV cm.labels ownerLabel = some (ownerLabelValue m)) := by
  intro ts
  induction ts with
  | nil => intro cluster _ t ht; simp at ht
  | cons t0 rest ih =>
    intro cluster hwf t ht cm hcm
    obtain ⟨cluster', heq, hclear⟩ :=
      deleteReplicatedConfigMap_clears f cluster n t0 m (hf t0) hwf
    simp only [deleteOrphanFromTargets, heq] at hcm
    have hwf' : WellFormed cluster' :=
      hwf.sublist (deleteReplicatedConfigMap_ok_sublist f cluster n t0 m cluster' heq)
    rcases List.mem_cons.mp ht with rfl | ht
    · have hsub := deleteOrphanFromTargets_sublist f m n rest cluster'
      exact hclear cm (hsub.subset hcm)
    · exact ih cluster' hwf' t ht cm hcm

theorem not_dbKeyMatches_deleteConfigMapDB (rows : List DBRecord)
    (n ns mn mns : String) :
    ∀ r ∈ deleteConfigMapDB rows n ns mn mns, ¬(dbKeyMatches r n ns mn mns = true) := by
  intro r hr
  unfold deleteConfigMapDB at hr
  have := List.of_mem_filter hr
  simp only [decide_not, decide_eq_true_eq] at this
  simpa using this

theorem cleanupOrphans_clears (f : Faults) (hasDB : Bool) (m : ConfigMirror)
    (names : List String) (prev : ReplicatedConfigMap)
    (hofail : ∀ t, f.orphanDeleteFail prev.name t = false)
    (hdfail : f.dbDeleteFail prev.name = false)
    (hname : names.contains prev.name = false) :
    ∀ (prevs : List ReplicatedConfigMap) (cluster : List ConfigMap)
      (rows : List DBRecord), WellFormed cluster → prev ∈ prevs →
      (∀ cm ∈ (cleanupOrphans f hasDB m names cluster rows prevs).fst,
        cm.nspace ∈ m.spec.targetNamespaces → cm.name = prev.name →
        getKV cm.labels ownerLabel ≠ some (ownerLabelValue m)) ∧
      (dbEnabled hasDB m = true →
        ∀ r ∈ (cleanupOrphans f hasDB m names cluster rows prevs).snd,
          ¬(dbKeyMatches r prev.name prev.sourceNamespace m.name m.nspace = true)) := by
  intro prevs
  induction prevs with
  | nil => intro cluster rows _ hprev; simp at hprev
  | cons p rest ih =>
    intro cluster rows hwf hprev
    by_cases hn : names.contains p.name
    · have hne : prev ∈ rest := by
        rcases List.mem_cons.mp hprev with rfl | hp
        · rw [hname] at hn
          simp at hn
        · exact hp
      constructor
      · intro cm hcm
        simp only [cleanupOrphans, hn, if_true] at hcm
        exact (ih cluster rows hwf hne).1 cm hcm
      · intro hdb r hr
        simp only [cleanupOrphans, hn, if_true] at hr
        exact (ih cluster rows hwf hne).2 hdb r hr
    · have hwf' : WellFormed (deleteOrphanFromTargets f m p.name cluster
          m.spec.targetNamespaces) :=
        hwf.sublist (deleteOrphanFromTargets_sublist f m p.name _ cluster)
      rcases List.mem_cons.mp hprev with rfl | hp
      · constructor
        · intro cm hcm hns hcmname
          simp only [cleanupOrphans, hn, Bool.false_eq_true, if_false] at hcm
          have hcm' := (cleanupOrphans_fst_sublist f hasDB m names rest _ _).subset hcm
          intro hmark
          exact deleteOrphanFromTargets_clears f m prev.name hofail
            m.spec.targetNamespaces cluster hwf cm.nspace hns cm hcm'
            ⟨rfl, hcmname, hmark⟩
        · intro hdb r hr
          simp only [cleanupOrphans, hn, Bool.false_eq_true, if_false, hdb, hdfail,
            Bool.not_false, Bool.and_true, if_true] at hr
          exact not_dbKeyMatches_deleteConfigMapDB rows prev.name prev.sourceNamespace
            m.name m.nspace r
            ((cleanupOrphans_snd_sublist f hasDB m names rest _ _).subset hr)
      · constructor
        · intro cm hcm
          simp only [cleanupOrphans, hn, Bool.false_eq_true, if_false] at hcm
          exact (ih _ _ hwf' hp).1 cm hcm
        · intro hdb r hr
          simp only [cleanupOrphans, hn, Bool.false_eq_true, if_false] at hr
          exact (ih _ _ hwf' hp).2 hdb r hr

/-! ### C6 -/

theorem contains_eq_false_of_not_mem (l : List String) (a : String) (h : a ∉ l) :
    l.contains a = false := by
  induction l with
  | nil => rfl
  | cons x rest ih =>
    have hx : ¬(a = x) := fun hc => h (hc ▸ List.mem_cons_self _ _)
    simp only [List.contains_cons, Bool.or_eq_false_iff]
    exact ⟨by simpa using hx, ih (fun hc => h (List.mem_cons_of_mem _ hc))⟩

/-- C6: a fault-free pass with a compiling selector removes every stale tracked
name: if `prev` is recorded in the previous status and its name is absent from
the current match set, then after the pass no object bearing this owner's
marker and that name remains in any of the spec's target namespaces, and (when
persistence is enabled) no persisted record with that name's natural key
remains — with no separate deletion event involved. -/
theorem C6_stale_tracked_names_swept (hasDB : Bool) (now : Nat) (m : ConfigMirror)
    (cluster : List ConfigMap) (rows : List DBRecord) (sel : Selector)
    (prev : ReplicatedConfigMap)
    (hwf : WellFormed cluster)
    (hsel : labelSelectorAsSelector m.spec.selector = .ok sel)
    (hprev : prev ∈ m.status.replicatedConfigMaps)
    (habsent : prev.name ∉ (listCMs cluster m.nspace sel).map (fun c => c.name)) :
    (∀ cm ∈ (reconcileActive noFaults hasDB now m cluster rows).cluster,
      cm.nspace ∈ m.spec.targetNamespaces → cm.name = prev.name →
      getKV cm.labels ownerLabel ≠ some (ownerLabelValue m)) ∧
    (dbEnabled hasDB m = true →
      ∀ r ∈ (reconcileActive noFaults hasDB now m cluster rows).rows,
        ¬(dbKeyMatches r prev.name prev.sourceNamespace m.name m.nspace = true)) := by
  have hname : ((listCMs cluster m.nspace sel).map (fun c => c.name)).contains prev.name
      = false := contains_eq_false_of_not_mem _ _ habsent
  have hwfst : WellFormed (processSources noFaults hasDB now m
      { cluster := cluster, rows := rows, replicated := [] }
      (listCMs cluster m.nspace sel)).cluster :=
    WF_processSources noFaults hasDB now m _ _ hwf
  simp only [reconcileActive, hsel, show noFaults.listFail = false from rfl,
    Bool.false_eq_true, if_false, updateStatus]
  exact cleanupOrphans_clears noFaults hasDB m _ prev (fun t => rfl) rfl hname
    m.status.replicatedConfigMaps _ _ hwfst hprev

/-- Witness for C6 at a concrete input: owner mirC6 previously tracked "old",
whose source is gone; its derived copy and persisted record are both swept. -/
theorem C6_witness :
    (∀ cm ∈ (reconcileActive noFaults true 4 mirC6 [srcC2, oldReplicaC6] [rowC6]).cluster,
      cm.nspace ∈ mirC6.spec.targetNamespaces → cm.name = prevC6.name →
      getKV cm.labels ownerLabel ≠ some (ownerLabelValue mirC6)) ∧
    (dbEnabled true mirC6 = true →
      ∀ r ∈ (reconcileActive noFaults true 4 mirC6 [srcC2, oldReplicaC6] [rowC6]).rows,
        ¬(dbKeyMatches r prevC6.name prevC6.sourceNamespace mirC6.name mirC6.nspace
          = true)) :=
  C6_stale_tracked_names_swept true 4 mirC6 [srcC2, oldReplicaC6] [rowC6] selC6 prevC6
    (by decide) (by decide) (by decide) (by decide)

theorem findCondition_none (conds : List Condition) (t : String)
    (h : findCondition conds t = none) : ∀ c ∈ conds, c.ctype ≠ t := by
  induction conds with
  | nil => intro c hc; simp at hc
  | cons c0 rest ih =>
    by_cases hc0 : c0.ctype = t
    · simp [findCondition, hc0] at h
    · simp only [findCondition, if_neg hc0] at h
      intro c hc
      rcases List.mem_cons.mp hc with rfl | hc
      · exact hc0
      · exact ih h c hc

theorem replaceCondition_no_match (c' : Condition) (conds : List Condition)
    (h : ∀ c ∈ conds, c.ctype ≠ c'.ctype) : replaceCondition c' conds = conds := by
  induction conds with
  | nil => rfl
  | cons c0 rest ih =>
    simp only [replaceCondition,
      if_neg (h c0 (List.mem_cons_self _ _)), List.cons.injEq]
    exact ⟨by trivial, ih (fun c hc => h c (List.mem_cons_of_mem c0 hc))⟩

theorem findCondition_replaceCondition (c' : Condition) (conds : List Condition)
    (ex : Condition) (h : findCondition conds c'.ctype = some ex) :
    findCondition (replaceCondition c' conds) c'.ctype = some c' := by
  induction conds with
  | nil => simp [findCondition] at h
  | cons c0 rest ih =>
    by_cases hc0 : c0.ctype = c'.ctype
    · simp [replaceCondition, if_pos hc0, findCondition]
    · simp only [findCondition, if_neg hc0] at h
      simp only [replaceCondition, if_neg hc0, findCondition, if_neg hc0]
      exact ih h

theorem replaceCondition_idem (c' : Condition) (conds : List Condition) :
    replaceCondition c' (replaceCondition c' conds) = replaceCondition c' conds := by
  induction conds with
  | nil => rfl
  | cons c0 rest ih =>
    by_cases hc0 : c0.ctype = c'.ctype
    · simp only [replaceCondition, if_pos hc0, if_pos rfl, List.cons.injEq]
      exact ⟨by trivial, ih⟩
    · simp only [replaceCondition, if_neg hc0, List.cons.injEq]
      exact ⟨by trivial, ih⟩

theorem findCondition_append_self (c : Condition) (conds : List Condition)
    (hnone : ∀ x ∈ conds, x.ctype ≠ c.ctype) :
    findCondition (conds ++ [c]) c.ctype = some c := by
  induction conds with
  | nil => simp [findCondition]
  | cons c0 rest ih =>
    simp only [List.cons_append, findCondition,
      if_neg (hnone c0 (List.mem_cons_self _ _))]
    exact ih (fun x hx => hnone x (List.mem_cons_of_mem c0 hx))

theorem replaceCondition_append_self (c : Condition) (conds : List Condition)
    (hnone : ∀ x ∈ conds, x.ctype ≠ c.ctype) :
    replaceCondition c (conds ++ [c]) = conds ++ [c] := by
  induction conds with
  | nil => simp [replaceCondition]
  | cons c0 rest ih =>
    simp only [List.cons_append, replaceCondition,
      if_neg (hnone c0 (List.mem_cons_self _ _)), List.cons.injEq]
    exact ⟨by trivial, ih (fun x hx => hnone x (List.mem_cons_of_mem c0 hx))⟩

theorem setStatusCondition_stable (conds : List Condition) (c : Condition) :
    setStatusCondition (setStatusCondition conds c) c = setStatusCondition conds c := by
  unfold setStatusCondition
  cases hfind : findCondition conds c.ctype with
  | none =>
    have hnone := findCondition_none conds c.ctype hfind
    rw [findCondition_append_self c conds hnone]
    dsimp only
    have heq : ({ c with lastTransitionTime :=
        if c.cstatus = c.cstatus then c.lastTransitionTime else c.lastTransitionTime } :
        Condition) = c := by simp
    rw [heq]
    exact replaceCondition_append_self c conds hnone
  | some ex =>
    rw [findCondition_replaceCondition
      { c with lastTransitionTime :=
          if ex.cstatus = c.cstatus then ex.lastTransitionTime else c.lastTransitionTime }
      conds ex hfind]
    dsimp only
    have heq : ({ c with lastTransitionTime :=
        if ({ c with lastTransitionTime := if ex.cstatus = c.cstatus then
                ex.lastTransitionTime else c.lastTransitionTime } : Condition).cstatus
            = c.cstatus
        then ({ c with lastTransitionTime := if ex.cstatus = c.cstatus then
                ex.lastTransitionTime else c.lastTransitionTime } : Condition).lastTransitionTime
        else c.lastTransitionTime } : Condition) =
        { c with lastTransitionTime :=
          if ex.cstatus = c.cstatus then ex.lastTransitionTime else c.lastTransitionTime } := by
      simp
    rw [heq]
    exact replaceCondition_idem _ conds

theorem updateCM_no_match (cluster : List ConfigMap) (cm : ConfigMap)
    (h : ∀ b ∈ cluster, ¬(b.nspace = cm.nspace ∧ b.name = cm.name)) :
    updateCM cluster cm = cluster := by
  induction cluster with
  | nil => rfl
  | cons c rest ih =>
    simp only [updateCM, if_neg (h c (List.mem_cons_self _ _)), List.cons.injEq]
    exact ⟨by trivial, ih (fun b hb => h b (List.mem_cons_of_mem c hb))⟩

theorem updateCM_self (cluster : List ConfigMap) (ex : ConfigMap)
    (hwf : WellFormed cluster) (hget : getCM cluster ex.nspace ex.name = some ex) :
    updateCM cluster ex = cluster := by
  induction cluster with
  | nil => rfl
  | cons c rest ih =>
    have hhead := (List.pairwise_cons.mp hwf).1
    have hwf' : WellFormed rest := (List.pairwise_cons.mp hwf).2
    by_cases hc : c.nspace = ex.nspace ∧ c.name = ex.name
    · simp only [getCM, if_pos hc] at hget
      have hce : c = ex := Option.some.inj hget
      simp only [updateCM, if_pos hc, List.cons.injEq]
      refine ⟨hce.symm, ?_⟩
      refine updateCM_no_match rest ex ?_
      intro b hb hk
      exact hhead b hb ⟨hce ▸ hk.1.symm ▸ rfl, hce ▸ hk.2.symm ▸ rfl⟩
    · simp only [getCM, if_neg hc] at hget
      simp only [updateCM, if_neg hc, List.cons.injEq]
      exact ⟨by trivial, ih hwf' hget⟩

theorem contains_of_mem (l : List String) (a : String) (h : a ∈ l) :
    l.contains a = true := by
  induction l with
  | nil => simp at h
  | cons x rest ih =>
    rcases List.mem_cons.mp h with rfl | h
    · simp [List.contains_cons]
    · simp only [List.contains_cons, Bool.or_eq_true, beq_iff_eq]
      exact Or.inr (by simpa using ih h)

theorem cleanupOrphans_noop (f : Faults) (hasDB : Bool) (m : ConfigMirror)
    (names : List String) :
    ∀ (prevs : List ReplicatedConfigMap) (cluster : List ConfigMap)
      (rows : List DBRecord),
      (∀ p ∈ prevs, names.contains p.name = true) →
      cleanupOrphans f hasDB m names cluster rows prevs = (cluster, rows) := by
  intro prevs
  induction prevs with
  | nil => intro cluster rows _; rfl
  | cons p rest ih =>
    intro cluster rows hall
    simp only [cleanupOrphans, hall p (List.mem_cons_self _ _), if_true]
    exact ih cluster rows (fun q hq => hall q (List.mem_cons_of_mem p hq))

theorem listCMs_createCM_ne (cluster : List ConfigMap) (cm : ConfigMap) (ns : String)
    (sel : Selector) (h : cm.nspace ≠ ns) :
    listCMs (createCM cluster cm) ns sel = listCMs cluster ns sel := by
  induction cluster with
  | nil => simp [createCM, listCMs, h]
  | cons c rest ih =>
    by_cases hc : c.nspace = ns ∧ selMatches sel c.labels
    · simp only [createCM, List.cons_append, List.append_eq, listCMs, if_pos hc] at ih ⊢
      rw [ih]
    · simp only [createCM, List.cons_append, List.append_eq, listCMs, if_neg hc] at ih ⊢
      exact ih

theorem listCMs_updateCM_ne (cluster : List ConfigMap) (cm : ConfigMap) (ns : String)
    (sel : Selector) (h : cm.nspace ≠ ns) :
    listCMs (updateCM cluster cm) ns sel = listCMs cluster ns sel := by
  induction cluster with
  | nil => rfl
  | cons c rest ih =>
    by_cases hk : c.nspace = cm.nspace ∧ c.name = cm.name
    · have hcns : ¬(c.nspace = ns ∧ selMatches sel c.labels) := by
        intro hc
        exact h (hk.1 ▸ hc.1)
      have hcmns : ¬(cm.nspace = ns ∧ selMatches sel cm.labels) := by
        intro hc
        exact h hc.1
      simp only [updateCM, if_pos hk, listCMs, if_neg hcns, if_neg hcmns]
      exact ih
    · by_cases hc : c.nspace = ns ∧ selMatches sel c.labels
      · simp only [updateCM, if_neg hk, listCMs, if_pos hc, List.cons.injEq]
        exact ⟨by trivial, ih⟩
      · simp only [updateCM, if_neg hk, listCMs, if_neg hc]
        exact ih

theorem listCMs_deleteCM_ne (cluster : List ConfigMap) (ns' n : String) (ns : String)
    (sel : Selector) (h : ns' ≠ ns) :
    listCMs (deleteCM cluster ns' n) ns sel = listCMs cluster ns sel := by
  induction cluster with
  | nil => rfl
  | cons c rest ih =>
    by_cases hk : c.nspace = ns' ∧ c.name = n
    · have hcns : ¬(c.nspace = ns ∧ selMatches sel c.labels) := by
        intro hc
        exact h (hk.1 ▸ hc.1)
      simp only [deleteCM, if_pos hk, listCMs, if_neg hcns]
      exact ih
    · by_cases hc : c.nspace = ns ∧ selMatches sel c.labels
      · simp only [deleteCM, if_neg hk, listCMs, if_pos hc, List.cons.injEq]
        exact ⟨by trivial, ih⟩
      · simp only [deleteCM, if_neg hk, listCMs, if_neg hc]
        exact ih

theorem listCMs_replicateConfigMap_ne (f : Faults) (cluster : List ConfigMap)
    (s : ConfigMap) (t : String) (owner : ConfigMirror) (cluster' : List ConfigMap)
    (ns : String) (sel : Selector) (ht : t ≠ ns)
    (h : replicateConfigMap f cluster s t owner = .ok cluster') :
    listCMs cluster' ns sel = listCMs cluster ns sel := by
  unfold replicateConfigMap at h
  split at h
  · exact absurd h (by simp)
  · split at h
    · cases Except.ok.inj h
      exact listCMs_createCM_ne cluster _ ns sel ht
    · cases Except.ok.inj h
      next ex hget =>
        have hexns : ex.nspace = t := (getCM_some cluster t s.name ex hget).2.1
        refine listCMs_updateCM_ne cluster _ ns sel ?_
        simpa [hexns] using ht

theorem listCMs_replicateToTargets (f : Faults) (owner : ConfigMirror) (s : ConfigMap)
    (ns : String) (sel : Selector) :
    ∀ (ts : List String) (cluster : List ConfigMap), (∀ t ∈ ts, t ≠ ns) →
      listCMs (replicateToTargets f owner s cluster ts).snd ns sel =
        listCMs cluster ns sel := by
  intro ts
  induction ts with
  | nil => intro cluster _; rfl
  | cons t rest ih =>
    intro cluster hts
    simp only [replicateToTargets]
    cases hrep : replicateConfigMap f cluster s t owner with
    | error e => exact ih cluster (fun t' ht' => hts t' (List.mem_cons_of_mem t ht'))
    | ok cluster' =>
      rw [ih cluster' (fun t' ht' => hts t' (List.mem_cons_of_mem t ht'))]
      exact listCMs_replicateConfigMap_ne f cluster s t owner cluster' ns sel
        (hts t (List.mem_cons_self _ _)) hrep

theorem listCMs_processSources (f : Faults) (hasDB : Bool) (now : Nat)
    (m : ConfigMirror) (ns : String) (sel : Selector)
    (hts : ∀ t ∈ m.spec.targetNamespaces, t ≠ ns) :
    ∀ (items : List ConfigMap) (st : PassState),
      listCMs (processSources f hasDB now m st items).cluster ns sel =
        listCMs st.cluster ns sel := by
  intro items
  induction items with
  | nil => intro st; rfl
  | cons cm rest ih =>
    intro st
    simp only [processSources]
    rw [ih]
    exact listCMs_replicateToTargets f m cm ns sel m.spec.targetNamespaces st.cluster hts

theorem listCMs_deleteReplicatedConfigMap (f : Faults) (cluster : List ConfigMap)
    (n t : String) (owner : ConfigMirror) (cluster' : List ConfigMap)
    (ns : String) (sel : Selector) (ht : t ≠ ns)
    (h : deleteReplicatedConfigMap f cluster n t owner = .ok cluster') :
    listCMs cluster' ns sel = listCMs cluster ns sel := by
  rcases deleteReplicatedConfigMap_ok f cluster n t owner cluster' h with rfl | rfl
  · rfl
  · exact listCMs_deleteCM_ne cluster t n ns sel ht

theorem listCMs_deleteOrphanFromTargets (f : Faults) (m : ConfigMirror) (n : String)
    (ns : String) (sel : Selector) :
    ∀ (ts : List String) (cluster : List ConfigMap), (∀ t ∈ ts, t ≠ ns) →
      listCMs (deleteOrphanFromTargets f m n cluster ts) ns sel =
        listCMs cluster ns sel := by
  intro ts
  induction ts with
  | nil => intro cluster _; rfl
  | cons t rest ih =>
    intro cluster hts
    simp only [deleteOrphanFromTargets]
    cases hrep : deleteReplicatedConfigMap f cluster n t m with
    | error e => exact ih cluster (fun t' ht' => hts t' (List.mem_cons_of_mem t ht'))
    | ok cluster' =>
      rw [ih cluster' (fun t' ht' => hts t' (List.mem_cons_of_mem t ht'))]
      exact listCMs_deleteReplicatedConfigMap f cluster n t m cluster' ns sel
        (hts t (List.mem_cons_self _ _)) hrep

theorem listCMs_cleanupOrphans (f : Faults) (hasDB : Bool) (m : ConfigMirror)
    (names : List String) (ns : String) (sel : Selector)
    (hts : ∀ t ∈ m.spec.targetNamespaces, t ≠ ns) :
    ∀ (prevs : List ReplicatedConfigMap) (cluster : List ConfigMap)
      (rows : List DBRecord),
      listCMs (cleanupOrphans f hasDB m names cluster rows prevs).fst ns sel =
        listCMs cluster ns sel := by
  intro prevs
  induction prevs with
  | nil => intro cluster rows; rfl
  | cons p rest ih =>
    intro cluster rows
    simp only [cleanupOrphans]
    by_cases hn : names.contains p.name
    · simp only [hn, if_true]
      exact ih cluster rows
    · simp only [hn, Bool.false_eq_true, if_false]
      rw [ih]
      exact listCMs_deleteOrphanFromTargets f m p.name ns sel
        m.spec.targetNamespaces cluster hts

theorem getCM_updateCM_self_key (cluster : List ConfigMap) (cm : ConfigMap)
    (ns n : String) (hns : cm.nspace = ns) (hn : cm.name = n) (ex : ConfigMap)
    (h : getCM cluster ns n = some ex) :
    getCM (updateCM cluster cm) ns n = some cm := by
  subst hns
  subst hn
  exact getCM_updateCM_self cluster cm ex h

theorem replicateConfigMap_normalizes (f : Faults) (cluster : List ConfigMap)
    (s : ConfigMap) (t : String) (owner : ConfigMirror) (cluster' : List ConfigMap)
    (h : replicateConfigMap f cluster s t owner = .ok cluster') :
    replicaNormalized cluster' s (ownerLabelValue owner) t ∧
    (∀ ns n, ¬(ns = t ∧ n = s.name) → getCM cluster' ns n = getCM cluster ns n) := by
  unfold replicateConfigMap at h
  split at h
  · exact absurd h (by simp)
  · split at h
    · next hget =>
      cases Except.ok.inj h
      constructor
      · refine ⟨_, getCM_createCM_self cluster _ hget, rfl, rfl, ?_⟩
        simp [setKV, removeKey]
      · intro ns n hk
        refine getCM_createCM_ne cluster _ ns n ?_
        intro hc
        exact hk ⟨hc.1.symm, hc.2.symm⟩
    · next ex hget =>
      cases Except.ok.inj h
      obtain ⟨hmem, hns, hn⟩ := getCM_some cluster t s.name ex hget
      constructor
      · have h2 : getCM (updateCM cluster { ex with data := s.data, binaryData := s.binaryData, labels := setKV ex.labels ownerLabel (ownerLabelValue owner) }) t s.name = some { ex with data := s.data, binaryData := s.binaryData, labels := setKV ex.labels ownerLabel (ownerLabelValue owner) } :=
          getCM_updateCM_self_key cluster _ t s.name hns hn ex hget
        exact ⟨_, h2, rfl, rfl,
          setKV_idem ex.labels ownerLabel (ownerLabelValue owner)⟩
      · intro ns n hk
        refine getCM_updateCM_ne cluster _ ns n ?_
        intro hc
        exact hk ⟨hc.1.symm.trans hns, hc.2.symm.trans hn⟩

theorem replicaNormalized_of_getCM_eq (cluster cluster' : List ConfigMap)
    (s : ConfigMap) (v t : String)
    (h : getCM cluster' t s.name = getCM cluster t s.name)
    (hn : replicaNormalized cluster s v t) : replicaNormalized cluster' s v t := by
  obtain ⟨ex, hget, h1, h2, h3⟩ := hn
  exact ⟨ex, h ▸ hget, h1, h2, h3⟩

theorem replicateToTargets_normalizes (f : Faults) (owner : ConfigMirror)
    (s : ConfigMap) (hf : ∀ t, f.replicateFail s.name t = false) :
    ∀ (ts : List String) (cluster : List ConfigMap),
      (∀ t ∈ ts, replicaNormalized
        (replicateToTargets f owner s cluster ts).snd s (ownerLabelValue owner) t) ∧
      (∀ ns n, ¬(n = s.name ∧ ns ∈ ts) →
        getCM (replicateToTargets f owner s cluster ts).snd ns n =
          getCM cluster ns n) := by
  intro ts
  induction ts with
  | nil => intro cluster; exact ⟨fun t ht => absurd ht (by simp), fun ns n _ => rfl⟩
  | cons t0 rest ih =>
    intro cluster
    cases hrep : replicateConfigMap f cluster s t0 owner with
    | error e =>
      exfalso
      unfold replicateConfigMap at hrep
      rw [hf t0] at hrep
      simp only [Bool.false_eq_true, if_false] at hrep
      rcases hg : getCM cluster t0 s.name with _ | ex <;> rw [hg] at hrep <;> simp at hrep
    | ok cluster1 =>
      obtain ⟨hnorm0, hframe0⟩ :=
        replicateConfigMap_normalizes f cluster s t0 owner cluster1 hrep
      constructor
      · intro t ht
        simp only [replicateToTargets, hrep]
        by_cases htr : t ∈ rest
        · exact (ih cluster1).1 t htr
        · rcases List.mem_cons.mp ht with rfl | htr'
          · refine replicaNormalized_of_getCM_eq cluster1 _ s _ t ?_ hnorm0
            exact (ih cluster1).2 t s.name (fun hc => htr hc.2)
          · exact absurd htr' htr
      · intro ns n hk
        simp only [replicateToTargets, hrep]
        have hk1 : ¬(n = s.name ∧ ns ∈ rest) := by
          intro hc
          exact hk ⟨hc.1, List.mem_cons_of_mem t0 hc.2⟩
        have hk0 : ¬(ns = t0 ∧ n = s.name) := by
          intro hc
          exact hk ⟨hc.2, hc.1 ▸ List.mem_cons_self _ _⟩
        rw [(ih cluster1).2 ns n hk1]
        exact hframe0 ns n hk0

theorem getCM_replicateToTargets_other (f : Faults) (owner : ConfigMirror)
    (s : ConfigMap) (ns n : String) :
    ∀ (ts : List String) (cluster : List ConfigMap), n ≠ s.name →
      getCM (replicateToTargets f owner s cluster ts).snd ns n =
        getCM cluster ns n := by
  intro ts
  induction ts with
  | nil => intro cluster _; rfl
  | cons t rest ih =>
    intro cluster hn
    simp only [replicateToTargets]
    cases hrep : replicateConfigMap f cluster s t owner with
    | error e => exact ih cluster hn
    | ok cluster1 =>
      rw [ih cluster1 hn]
      exact (replicateConfigMap_normalizes f cluster s t owner cluster1 hrep).2 ns n
        (fun hc => hn hc.2)

theorem processSources_normalized (f : Faults) (hasDB : Bool) (now : Nat)
    (m : ConfigMirror) (hf : ∀ n t, f.replicateFail n t = false) :
    ∀ (items : List ConfigMap) (st : PassState),
      items.Pairwise (fun a b => a.name ≠ b.name) →
      (∀ s ∈ items, ∀ t ∈ m.spec.targetNamespaces,
        replicaNormalized (processSources f hasDB now m st items).cluster s
          (ownerLabelValue m) t) ∧
      (∀ ns n, (∀ s ∈ items, s.name ≠ n) →
        getCM (processSources f hasDB now m st items).cluster ns n =
          getCM st.cluster ns n) := by
  intro items
  induction items with
  | nil =>
    intro st _
    exact ⟨fun s hs => absurd hs (by simp), fun ns n _ => rfl⟩
  | cons s0 rest ih =>
    intro st hpw
    have hpw' := (List.pairwise_cons.mp hpw).2
    have hhead := (List.pairwise_cons.mp hpw).1
    constructor
    · intro s hs t ht
      simp only [processSources]
      rcases List.mem_cons.mp hs with rfl | hs'
      · refine replicaNormalized_of_getCM_eq _ _ s _ t ?_
          ((replicateToTargets_normalizes f m s (hf s.name)
            m.spec.targetNamespaces st.cluster).1 t ht)
        exact (ih _ hpw').2 t s.name (fun s' hs' => (hhead s' hs').symm)
      · exact (ih _ hpw').1 s hs' t ht
    · intro ns n hnall
      simp only [processSources]
      rw [(ih _ hpw').2 ns n (fun s' hs' => hnall s' (List.mem_cons_of_mem s0 hs'))]
      exact getCM_replicateToTargets_other f m s0 ns n m.spec.targetNamespaces
        st.cluster (fun hc => hnall s0 (List.mem_cons_self _ _) hc.symm)

theorem listCMs_sublist (cluster : List ConfigMap) (ns : String) (sel : Selector) :
    List.Sublist (listCMs cluster ns sel) cluster := by
  induction cluster with
  | nil => simp [listCMs]
  | cons c rest ih =>
    by_cases hc : c.nspace = ns ∧ selMatches sel c.labels
    · simp only [listCMs, if_pos hc]
      exact ih.cons₂ c
    · simp only [listCMs, if_neg hc]
      exact ih.cons c

theorem mem_listCMs (cluster : List ConfigMap) (ns : String) (sel : Selector)
    (cm : ConfigMap) (h : cm ∈ listCMs cluster ns sel) :
    cm ∈ cluster ∧ cm.nspace = ns ∧ selMatches sel cm.labels = true := by
  induction cluster with
  | nil => simp [listCMs] at h
  | cons c rest ih =>
    by_cases hc : c.nspace = ns ∧ selMatches sel c.labels
    · simp only [listCMs, if_pos hc] at h
      rcases List.mem_cons.mp h with rfl | h
      · exact ⟨List.mem_cons_self _ _, hc⟩
      · rcases ih h with ⟨h1, h2⟩
        exact ⟨List.mem_cons_of_mem c h1, h2⟩
    · simp only [listCMs, if_neg hc] at h
      rcases ih h with ⟨h1, h2⟩
      exact ⟨List.mem_cons_of_mem c h1, h2⟩

theorem listCMs_names_pairwise (cluster : List ConfigMap) (ns : String)
    (sel : Selector) (hwf : WellFormed cluster) :
    (listCMs cluster ns sel).Pairwise (fun a b => a.name ≠ b.name) := by
  have hsub : WellFormed (listCMs cluster ns sel) :=
    hwf.sublist (listCMs_sublist cluster ns sel)
  refine hsub.imp_of_mem ?_
  intro a b ha hb hk hn
  exact hk ⟨(mem_listCMs cluster ns sel a ha).2.1.trans
    (mem_listCMs cluster ns sel b hb).2.1.symm, hn⟩

theorem getCM_cleanupOrphans_tracked (f : Faults) (hasDB : Bool) (m : ConfigMirror)
    (names : List String) (ns n : String) (hn : names.contains n = true) :
    ∀ (prevs : List ReplicatedConfigMap) (cluster : List ConfigMap)
      (rows : List DBRecord),
      getCM (cleanupOrphans f hasDB m names cluster rows prevs).fst ns n =
        getCM cluster ns n := by
  intro prevs
  induction prevs with
  | nil => intro cluster rows; rfl
  | cons p rest ih =>
    intro cluster rows
    simp only [cleanupOrphans]
    by_cases hp : names.contains p.name
    · simp only [hp, if_true]
      exact ih cluster rows
    · simp only [hp, Bool.false_eq_true, if_false]
      rw [ih]
      have hne : p.name ≠ n := by
        intro hc
        rw [hc, hn] at hp
        exact hp rfl
      clear ih
      induction m.spec.targetNamespaces generalizing cluster with
      | nil => rfl
      | cons t rest2 ih2 =>
        simp only [deleteOrphanFromTargets]
        cases hrep : deleteReplicatedConfigMap f cluster p.name t m with
        | error e => exact ih2 cluster
        | ok cluster1 =>
          rw [ih2 cluster1]
          rcases deleteReplicatedConfigMap_ok f cluster p.name t m cluster1 hrep with
            rfl | rfl
          · rfl
          · exact getCM_deleteCM_ne cluster t p.name ns n (fun hc => hne hc.2)

theorem saveConfigMap_noop (rows : List DBRecord) (s : ConfigMap) (mn mns : String)
    (now : Nat) (h : RowsNormalized rows s mn mns now) :
    saveConfigMap rows s mn mns now = rows := by
  unfold saveConfigMap
  rw [h.1, if_pos rfl]
  refine (List.map_congr_left ?_).trans (List.map_id rows)
  intro r hr
  show _ = id r
  simp only [id]
  by_cases hm : dbKeyMatches r s.name s.nspace mn mns = true
  · rw [if_pos hm]
    obtain ⟨h1, h2, h3, h4⟩ := h.2 r hr hm
    rw [← h1, ← h2, ← h3, ← h4]
  · rw [if_neg hm]

theorem saveConfigMap_establishes (rows : List DBRecord) (s : ConfigMap)
    (mn mns : String) (now : Nat) :
    RowsNormalized (saveConfigMap rows s mn mns now) s mn mns now := by
  unfold saveConfigMap
  by_cases hany : rows.any (fun r => dbKeyMatches r s.name s.nspace mn mns) = true
  · rw [hany, if_pos rfl]
    constructor
    · rcases List.any_eq_true.mp hany with ⟨r0, hr0, hm0⟩
      refine List.any_eq_true.mpr ⟨_, List.mem_map_of_mem _ hr0, ?_⟩
      rw [if_pos hm0]
      simpa [dbKeyMatches] using hm0
    · intro r hr hm
      rcases List.mem_map.mp hr with ⟨r0, hr0, rfl⟩
      by_cases hm0 : dbKeyMatches r0 s.name s.nspace mn mns = true
      · rw [if_pos hm0]
        exact ⟨rfl, rfl, rfl, rfl⟩
      · rw [if_neg hm0] at hm ⊢
        exact absurd hm hm0
  · rw [Bool.not_eq_true] at hany
    rw [hany]
    simp only [Bool.false_eq_true, if_false]
    constructor
    · refine List.any_eq_true.mpr ⟨_, List.mem_append_right rows (List.mem_singleton.mpr rfl), ?_⟩
      simp [dbKeyMatches]
    · intro r hr hm
      rcases List.mem_append.mp hr with hr | hr
      · exfalso
        have : rows.any (fun r => dbKeyMatches r s.name s.nspace mn mns) = true :=
          List.any_eq_true.mpr ⟨r, hr, hm⟩
        rw [hany] at this
        exact absurd this (by simp)
      · rw [List.mem_singleton.mp hr]
        exact ⟨rfl, rfl, rfl, rfl⟩

theorem RowsNormalized_save_other (rows : List DBRecord) (s cm : ConfigMap)
    (mn mns : String) (now : Nat) (hname : cm.name ≠ s.name)
    (h : RowsNormalized rows s mn mns now) :
    RowsNormalized (saveConfigMap rows cm mn mns now) s mn mns now := by
  have hkey : ∀ r : DBRecord, dbKeyMatches r cm.name cm.nspace mn mns = true →
      dbKeyMatches r s.name s.nspace mn mns = true → False := by
    intro r h1 h2
    simp only [dbKeyMatches, decide_eq_true_eq] at h1 h2
    exact hname (h1.1.symm.trans h2.1)
  unfold saveConfigMap
  by_cases hany : rows.any (fun r => dbKeyMatches r cm.name cm.nspace mn mns) = true
  · rw [hany, if_pos rfl]
    constructor
    · rcases List.any_eq_true.mp h.1 with ⟨r0, hr0, hm0⟩
      refine List.any_eq_true.mpr ⟨_, List.mem_map_of_mem _ hr0, ?_⟩
      by_cases hm0' : dbKeyMatches r0 cm.name cm.nspace mn mns = true
      · exact absurd hm0 (by simpa using hkey r0 hm0')
      · rw [if_neg hm0']
        exact hm0
    · intro r hr hm
      rcases List.mem_map.mp hr with ⟨r0, hr0, rfl⟩
      by_cases hm0' : dbKeyMatches r0 cm.name cm.nspace mn mns = true
      · rw [if_pos hm0'] at hm ⊢
        exfalso
        refine hkey r0 hm0' ?_
        simpa [dbKeyMatches] using hm
      · rw [if_neg hm0'] at hm ⊢
        exact h.2 r0 hr0 hm
  · rw [Bool.not_eq_true] at hany
    rw [hany]
    simp only [Bool.false_eq_true, if_false]
    constructor
    · rcases List.any_eq_true.mp h.1 with ⟨r0, hr0, hm0⟩
      exact List.any_eq_true.mpr ⟨r0, List.mem_append_left _ hr0, hm0⟩
    · intro r hr hm
      rcases List.mem_append.mp hr with hr | hr
      · exact h.2 r hr hm
      · rw [List.mem_singleton.mp hr] at hm
        exfalso
        refine hkey _ ?_ hm
        simp [dbKeyMatches]

theorem RowsNormalized_delete_other (rows : List DBRecord) (s : ConfigMap)
    (mn mns : String) (now : Nat) (n' ns' mn' mns' : String) (hname : n' ≠ s.name)
    (h : RowsNormalized rows s mn mns now) :
    RowsNormalized (deleteConfigMapDB rows n' ns' mn' mns') s mn mns now := by
  constructor
  · rcases List.any_eq_true.mp h.1 with ⟨r0, hr0, hm0⟩
    refine List.any_eq_true.mpr ⟨r0, ?_, hm0⟩
    unfold deleteConfigMapDB
    refine List.mem_filter.mpr ⟨hr0, ?_⟩
    simp only [decide_not, Bool.not_eq_eq_eq_not, Bool.not_true, decide_eq_false_iff_not]
    intro hc
    simp only [dbKeyMatches, decide_eq_true_eq] at hc hm0
    exact hname (hc.1.symm.trans hm0.1)
  · intro r hr hm
    exact h.2 r (List.mem_filter.mp hr).1 hm

theorem processSources_rows_db_disabled (f : Faults) (hasDB : Bool) (now : Nat)
    (m : ConfigMirror) (hdb : dbEnabled hasDB m = false) :
    ∀ (items : List ConfigMap) (st : PassState),
      (processSources f hasDB now m st items).rows = st.rows := by
  intro items
  induction items with
  | nil => intro st; rfl
  | cons cm rest ih =>
    intro st
    simp only [processSources, hdb, Bool.false_and, Bool.false_eq_true, if_false]
    exact ih _

theorem cleanupOrphans_rows_db_disabled (f : Faults) (hasDB : Bool) (m : ConfigMirror)
    (names : List String) (hdb : dbEnabled hasDB m = false) :
    ∀ (prevs : List ReplicatedConfigMap) (cluster : List ConfigMap)
      (rows : List DBRecord),
      (cleanupOrphans f hasDB m names cluster rows prevs).snd = rows := by
  intro prevs
  induction prevs with
  | nil => intro cluster rows; rfl
  | cons p rest ih =>
    intro cluster rows
    simp only [cleanupOrphans]
    by_cases hn : names.contains p.name
    · simp only [hn, if_true]
      exact ih _ _
    · simp only [hn, Bool.false_eq_true, if_false, hdb, Bool.false_and]
      exact ih _ _

theorem processSources_rows_preserves (f : Faults) (hasDB : Bool) (now : Nat)
    (m : ConfigMirror) (s : ConfigMap) :
    ∀ (items : List ConfigMap) (st : PassState),
      (∀ s' ∈ items, s'.name ≠ s.name) →
      RowsNormalized st.rows s m.name m.nspace now →
      RowsNormalized (processSources f hasDB now m st items).rows s
        m.name m.nspace now := by
  intro items
  induction items with
  | nil => intro st _ h; exact h
  | cons cm rest ih =>
    intro st hnames h
    simp only [processSources]
    refine ih _ (fun s' hs' => hnames s' (List.mem_cons_of_mem cm hs')) ?_
    by_cases hsave : (dbEnabled hasDB m && !f.dbSaveFail cm.name) = true
    · simp only [hsave, if_true]
      exact RowsNormalized_save_other st.rows s cm m.name m.nspace now
        (hnames cm (List.mem_cons_self _ _)) h
    · simp only [hsave, Bool.false_eq_true, if_false]
      exact h

theorem processSources_rows_normalized (f : Faults) (hasDB : Bool) (now : Nat)
    (m : ConfigMirror) (hdb : dbEnabled hasDB m = true)
    (hf : ∀ n, f.dbSaveFail n = false) :
    ∀ (items : List ConfigMap) (st : PassState),
      items.Pairwise (fun a b => a.name ≠ b.name) →
      ∀ s ∈ items, RowsNormalized (processSources f hasDB now m st items).rows s
        m.name m.nspace now := by
  intro items
  induction items with
  | nil => intro st _ s hs; simp at hs
  | cons cm rest ih =>
    intro st hpw s hs
    have hpw' := (List.pairwise_cons.mp hpw).2
    have hhead := (List.pairwise_cons.mp hpw).1
    simp only [processSources, hdb, hf, Bool.not_false, Bool.and_true, if_true]
    rcases List.mem_cons.mp hs with rfl | hs'
    · refine processSources_rows_preserves f hasDB now m s rest _
        (fun s' hs' => (hhead s' hs').symm) ?_
      exact saveConfigMap_establishes st.rows s m.name m.nspace now
    · exact ih _ hpw' s hs'

theorem cleanupOrphans_rows_preserves (f : Faults) (hasDB : Bool) (m : ConfigMirror)
    (names : List String) (s : ConfigMap) (hs : names.contains s.name = true) :
    ∀ (prevs : List ReplicatedConfigMap) (cluster : List ConfigMap)
      (rows : List DBRecord),
      RowsNormalized rows s m.name m.nspace now →
      RowsNormalized (cleanupOrphans f hasDB m names cluster rows prevs).snd s
        m.name m.nspace now := by
  intro prevs
  induction prevs with
  | nil => intro cluster rows h; exact h
  | cons p rest ih =>
    intro cluster rows h
    simp only [cleanupOrphans]
    by_cases hn : names.contains p.name
    · simp only [hn, if_true]
      exact ih _ _ h
    · simp only [hn, Bool.false_eq_true, if_false]
      refine ih _ _ ?_
      by_cases hdel : (dbEnabled hasDB m && !f.dbDeleteFail p.name) = true
      · simp only [hdel, if_true]
        refine RowsNormalized_delete_other rows s m.name m.nspace now
          p.name p.sourceNamespace m.name m.nspace ?_ h
        intro hc
        rw [hc, hs] at hn
        exact hn rfl
      · simp only [hdel, Bool.false_eq_true, if_false]
        exact h

theorem replicateToTargets_snd_noop (f : Faults) (owner : ConfigMirror)
    (s : ConfigMap) (hf : ∀ t, f.replicateFail s.name t = false) :
    ∀ (ts : List String) (cluster : List ConfigMap), WellFormed cluster →
      (∀ t ∈ ts, replicaNormalized cluster s (ownerLabelValue owner) t) →
      (replicateToTargets f owner s cluster ts).snd = cluster := by
  intro ts
  induction ts with
  | nil => intro cluster _ _; rfl
  | cons t0 rest ih =>
    intro cluster hwf hnorm
    obtain ⟨ex, hget, hd, hb, hl⟩ := hnorm t0 (List.mem_cons_self _ _)
    obtain ⟨hmem, hns, hn⟩ := getCM_some cluster t0 s.name ex hget
    have hrep : replicateConfigMap f cluster s t0 owner = .ok cluster := by
      unfold replicateConfigMap
      rw [hf t0]
      simp only [Bool.false_eq_true, if_false, hget]
      have hex : ({ ex with data := s.data, binaryData := s.binaryData, labels := setKV ex.labels ownerLabel (ownerLabelValue owner) } : ConfigMap) = ex := by
        rw [← hd, ← hb, hl]
      rw [hex]
      rw [updateCM_self cluster ex hwf (by rw [hns, hn]; exact hget)]
    simp only [replicateToTargets, hrep]
    exact ih cluster hwf (fun t ht => hnorm t (List.mem_cons_of_mem t0 ht))

theorem processSources_noop (f : Faults) (hasDB : Bool) (now : Nat) (m : ConfigMirror)
    (hf : ∀ n t, f.replicateFail n t = false) (hfs : ∀ n, f.dbSaveFail n = false) :
    ∀ (items : List ConfigMap) (st : PassState), WellFormed st.cluster →
      (∀ s ∈ items, ∀ t ∈ m.spec.targetNamespaces,
        replicaNormalized st.cluster s (ownerLabelValue m) t) →
      (dbEnabled hasDB m = true → ∀ s ∈ items,
        RowsNormalized st.rows s m.name m.nspace now) →
      processSources f hasDB now m st items =
        { cluster := st.cluster, rows := st.rows,
          replicated := st.replicated ++ items.map (entryFor f now m) } := by
  intro items
  induction items with
  | nil => intro st _ _ _; simp [processSources]
  | cons s0 rest ih =>
    intro st hwf hnorm hrows
    have hsnd : (replicateToTargets f m s0 st.cluster m.spec.targetNamespaces).snd =
        st.cluster :=
      replicateToTargets_snd_noop f m s0 (hf s0.name) m.spec.targetNamespaces
        st.cluster hwf (hnorm s0 (List.mem_cons_self _ _))
    have hrows' : (if dbEnabled hasDB m && !f.dbSaveFail s0.name then
        saveConfigMap st.rows s0 m.name m.nspace now else st.rows) = st.rows := by
      by_cases hdb : dbEnabled hasDB m = true
      · simp only [hdb, hfs, Bool.not_false, Bool.and_true, if_true]
        exact saveConfigMap_noop st.rows s0 m.name m.nspace now
          (hrows hdb s0 (List.mem_cons_self _ _))
      · rw [Bool.not_eq_true] at hdb
        simp only [hdb, Bool.false_and, Bool.false_eq_true, if_false]
    simp only [processSources, hsnd, hrows']
    refine (ih _ ?_ ?_ ?_).trans ?_
    · exact hwf
    · exact fun s hs => hnorm s (List.mem_cons_of_mem s0 hs)
    · exact fun hdb s hs => hrows hdb s (List.mem_cons_of_mem s0 hs)
    · simp only [List.map_cons, List.append_assoc, List.singleton_append,
        PassState.mk.injEq]
      refine ⟨by trivial, by trivial, ?_⟩
      congr 2
      simp only [entryFor, replicateToTargets_fst]

theorem reconcileActive_mirror_meta (f : Faults) (hasDB : Bool) (now : Nat)
    (m : ConfigMirror) (cluster : List ConfigMap) (rows : List DBRecord) :
    (reconcileActive f hasDB now m cluster rows).mirror.name = m.name ∧
    (reconcileActive f hasDB now m cluster rows).mirror.nspace = m.nspace ∧
    (reconcileActive f hasDB now m cluster rows).mirror.generation = m.generation ∧
    (reconcileActive f hasDB now m cluster rows).mirror.deletionTimestampZero =
      m.deletionTimestampZero ∧
    (reconcileActive f hasDB now m cluster rows).mirror.finalizers = m.finalizers ∧
    (reconcileActive f hasDB now m cluster rows).mirror.spec = m.spec := by
  cases hsel : labelSelectorAsSelector m.spec.selector with
  | error e =>
    simp only [reconcileActive, hsel, updateStatus]
    refine ⟨?_, ?_, ?_, ?_, ?_, ?_⟩ <;> trivial
  | ok sel =>
    by_cases hlf : f.listFail
    · simp only [reconcileActive, hsel, hlf, if_true, updateStatus]
      refine ⟨?_, ?_, ?_, ?_, ?_, ?_⟩ <;> trivial
    · rw [Bool.not_eq_true] at hlf
      simp only [reconcileActive, hsel, hlf, Bool.false_eq_true, if_false, updateStatus]
      refine ⟨?_, ?_, ?_, ?_, ?_, ?_⟩ <;> trivial

theorem reconcileActive_persisted_noFaults (hasDB : Bool) (now : Nat)
    (m : ConfigMirror) (cluster : List ConfigMap) (rows : List DBRecord) :
    (reconcileActive noFaults hasDB now m cluster rows).persistedStatus =
      (reconcileActive noFaults hasDB now m cluster rows).mirror.status := by
  cases hsel : labelSelectorAsSelector m.spec.selector with
  | error e =>
    simp only [reconcileActive, hsel, updateStatus,
      show noFaults.statusWriteFail = false from rfl, Bool.false_eq_true, if_false]
  | ok sel =>
    simp only [reconcileActive, hsel, show noFaults.listFail = false from rfl,
      show noFaults.statusWriteFail = false from rfl,
      Bool.false_eq_true, if_false, updateStatus]

theorem reconcileActive_result_ok (f : Faults) (hasDB : Bool) (now : Nat)
    (m : ConfigMirror) (cluster : List ConfigMap) (rows : List DBRecord)
    (sel : Selector) (hsel : labelSelectorAsSelector m.spec.selector = .ok sel)
    (hlf : f.listFail = false) :
    (reconcileActive f hasDB now m cluster rows).result =
      .ok { requeueAfter := requeuePeriod } := by
  simp only [reconcileActive, hsel, hlf, Bool.false_eq_true, if_false, updateStatus]

theorem reconcileActive_WF (f : Faults) (hasDB : Bool) (now : Nat)
    (m : ConfigMirror) (cluster : List ConfigMap) (rows : List DBRecord)
    (hwf : WellFormed cluster) :
    WellFormed (reconcileActive f hasDB now m cluster rows).cluster := by
  cases hsel : labelSelectorAsSelector m.spec.selector with
  | error e =>
    simp only [reconcileActive, hsel, updateStatus]
    exact hwf
  | ok sel =>
    by_cases hlf : f.listFail
    · simp only [reconcileActive, hsel, hlf, if_true, updateStatus]
      exact hwf
    · rw [Bool.not_eq_true] at hlf
      simp only [reconcileActive, hsel, hlf, Bool.false_eq_true, if_false, updateStatus]
      exact (WF_processSources f hasDB now m _ _ hwf).sublist
        (cleanupOrphans_fst_sublist f hasDB m _ _ _ _)

theorem reconcileActive_listCMs (hasDB : Bool) (now : Nat) (m : ConfigMirror)
    (cluster : List ConfigMap) (rows : List DBRecord) (sel : Selector)
    (hsel : labelSelectorAsSelector m.spec.selector = .ok sel)
    (hts : ∀ t ∈ m.spec.targetNamespaces, t ≠ m.nspace) :
    listCMs (reconcileActive noFaults hasDB now m cluster rows).cluster m.nspace sel =
      listCMs cluster m.nspace sel := by
  simp only [reconcileActive, hsel, show noFaults.listFail = false from rfl,
    Bool.false_eq_true, if_false, updateStatus]
  rw [listCMs_cleanupOrphans noFaults hasDB m _ m.nspace sel hts,
    listCMs_processSources noFaults hasDB now m m.nspace sel hts]

theorem reconcileActive_replicated (f : Faults) (hasDB : Bool) (now : Nat)
    (m : ConfigMirror) (cluster : List ConfigMap) (rows : List DBRecord)
    (sel : Selector) (hsel : labelSelectorAsSelector m.spec.selector = .ok sel)
    (hlf : f.listFail = false) :
    (reconcileActive f hasDB now m cluster rows).mirror.status.replicatedConfigMaps =
      (listCMs cluster m.nspace sel).map (entryFor f now m) := by
  simp only [reconcileActive, hsel, hlf, Bool.false_eq_true, if_false, updateStatus]
  simp [processSources_replicated]

theorem reconcileActive_obsGen (f : Faults) (hasDB : Bool) (now : Nat)
    (m : ConfigMirror) (cluster : List ConfigMap) (rows : List DBRecord)
    (sel : Selector) (hsel : labelSelectorAsSelector m.spec.selector = .ok sel)
    (hlf : f.listFail = false) :
    (reconcileActive f hasDB now m cluster rows).mirror.status.observedGeneration =
      m.generation := by
  simp only [reconcileActive, hsel, hlf, Bool.false_eq_true, if_false, updateStatus]

theorem reconcileActive_dbStatus (hasDB : Bool) (now : Nat) (m : ConfigMirror)
    (cluster : List ConfigMap) (rows : List DBRecord) (sel : Selector)
    (hsel : labelSelectorAsSelector m.spec.selector = .ok sel)
    (hdb : dbEnabled hasDB m = true) :
    (reconcileActive noFaults hasDB now m cluster rows).mirror.status.databaseStatus =
      some { connected := true, lastSyncTime := some now, message := "Connected" } := by
  simp only [reconcileActive, hsel, show noFaults.listFail = false from rfl,
    Bool.false_eq_true, if_false, updateStatus, hdb,
    show noFaults.dbPingFail = false from rfl, if_true]

theorem reconcileActive_conditions (f : Faults) (hasDB : Bool) (now : Nat)
    (m : ConfigMirror) (cluster : List ConfigMap) (rows : List DBRecord)
    (sel : Selector) (hsel : labelSelectorAsSelector m.spec.selector = .ok sel)
    (hlf : f.listFail = false) :
    (reconcileActive f hasDB now m cluster rows).mirror.status.conditions =
      setStatusCondition m.status.conditions
        { ctype := "Ready", cstatus := "True", observedGeneration := m.generation,
          lastTransitionTime := now, reason := "ReconcileSuccess",
          message := "Successfully replicated ConfigMaps" } := by
  simp only [reconcileActive, hsel, hlf, Bool.false_eq_true, if_false, updateStatus]

theorem reconcileActive_normalizes (hasDB : Bool) (now : Nat) (m : ConfigMirror)
    (cluster : List ConfigMap) (rows : List DBRecord) (sel : Selector)
    (hsel : labelSelectorAsSelector m.spec.selector = .ok sel)
    (hwf : WellFormed cluster) :
    ∀ s ∈ listCMs cluster m.nspace sel, ∀ t ∈ m.spec.targetNamespaces,
      replicaNormalized (reconcileActive noFaults hasDB now m cluster rows).cluster s
        (ownerLabelValue m) t := by
  intro s hs t ht
  simp only [reconcileActive, hsel, show noFaults.listFail = false from rfl,
    Bool.false_eq_true, if_false, updateStatus]
  exact replicaNormalized_of_getCM_eq _ _ s _ t
    (getCM_cleanupOrphans_tracked noFaults hasDB m _ t s.name
      (contains_of_mem _ s.name (List.mem_map_of_mem (fun c => c.name) hs)) _ _ _)
    ((processSources_normalized noFaults hasDB now m (fun n t' => rfl) _ _
      (listCMs_names_pairwise cluster m.nspace sel hwf)).1 s hs t ht)

theorem reconcileActive_rows_normalized (hasDB : Bool) (now : Nat) (m : ConfigMirror)
    (cluster : List ConfigMap) (rows : List DBRecord) (sel : Selector)
    (hsel : labelSelectorAsSelector m.spec.selector = .ok sel)
    (hwf : WellFormed cluster) (hdb : dbEnabled hasDB m = true) :
    ∀ s ∈ listCMs cluster m.nspace sel,
      RowsNormalized (reconcileActive noFaults hasDB now m cluster rows).rows s
        m.name m.nspace now := by
  intro s hs
  simp only [reconcileActive, hsel, show noFaults.listFail = false from rfl,
    Bool.false_eq_true, if_false, updateStatus]
  exact cleanupOrphans_rows_preserves noFaults hasDB m _ s
    (contains_of_mem _ s.name (List.mem_map_of_mem (fun c => c.name) hs)) _ _ _
    (processSources_rows_normalized noFaults hasDB now m hdb (fun n => rfl) _ _
      (listCMs_names_pairwise cluster m.nspace sel hwf) s hs)

theorem reconcileActive_fixpoint (hasDB : Bool) (now : Nat) (M : ConfigMirror)
    (C : List ConfigMap) (R : List DBRecord) (sel : Selector)
    (hsel : labelSelectorAsSelector M.spec.selector = .ok sel)
    (hwfC : WellFormed C)
    (hnorm : ∀ s ∈ listCMs C M.nspace sel, ∀ t ∈ M.spec.targetNamespaces,
      replicaNormalized C s (ownerLabelValue M) t)
    (hrows : dbEnabled hasDB M = true → ∀ s ∈ listCMs C M.nspace sel,
      RowsNormalized R s M.name M.nspace now)
    (hRstat : M.status.replicatedConfigMaps =
      (listCMs C M.nspace sel).map (entryFor noFaults now M))
    (hgen : M.status.observedGeneration = M.generation)
    (hdbst : dbEnabled hasDB M = true →
      M.status.databaseStatus =
        some { connected := true, lastSyncTime := some now, message := "Connected" })
    (hcond : setStatusCondition M.status.conditions
      { ctype := "Ready", cstatus := "True", observedGeneration := M.generation,
        lastTransitionTime := now, reason := "ReconcileSuccess",
        message := "Successfully replicated ConfigMaps" } = M.status.conditions) :
    reconcileActive noFaults hasDB now M C R =
      { cluster := C, rows := R, mirror := M, persistedStatus := M.status,
        result := .ok { requeueAfter := requeuePeriod } } := by
  have hcont : ∀ p ∈ M.status.replicatedConfigMaps,
      ((listCMs C M.nspace sel).map (fun c => c.name)).contains p.name = true := by
    intro p hp
    rw [hRstat] at hp
    rcases List.mem_map.mp hp with ⟨s, hs, rfl⟩
    exact contains_of_mem _ s.name (List.mem_map_of_mem (fun c => c.name) hs)
  simp only [reconcileActive, hsel, show noFaults.listFail = false from rfl,
    show noFaults.statusWriteFail = false from rfl, Bool.false_eq_true, if_false,
    updateStatus]
  rw [processSources_noop noFaults hasDB now M (fun n t => rfl) (fun n => rfl)
    (listCMs C M.nspace sel) { cluster := C, rows := R, replicated := [] }
    hwfC hnorm hrows]
  rw [cleanupOrphans_noop noFaults hasDB M _ M.status.replicatedConfigMaps C R hcont]
  simp only [List.nil_append, ← hRstat, hcond]
  by_cases hdb : dbEnabled hasDB M = true
  · simp only [hdb, if_true, show noFaults.dbPingFail = false from rfl,
      Bool.false_eq_true, if_false, ← hdbst hdb]
    nth_rewrite 2 3 [← hgen]
    rfl
  · rw [Bool.not_eq_true] at hdb
    simp only [hdb, Bool.false_eq_true, if_false]
    nth_rewrite 2 3 [← hgen]
    rfl

/-- **C5 (amended).** Idempotence of the pass, with the proviso forced by the
listing-namespace behaviour: provided none of the target namespaces equals the
ConfigMirror's own namespace (the namespace the controller actually lists), a
second Active pass run immediately after a fault-free first one, with no
external change and the same clock, is a complete no-op: identical cluster,
identical persisted rows, identical status (replicated list, conditions,
database status) and the same success result. -/
theorem C5_second_pass_noop (hasDB : Bool) (now : Nat) (m : ConfigMirror)
    (cluster : List ConfigMap) (rows : List DBRecord)
    (hwf : WellFormed cluster)
    (hL : m.nspace ∉ m.spec.targetNamespaces)
    (hact : m.deletionTimestampZero = true)
    (hfin : m.finalizers.contains finalizerName = true) :
    reconcile noFaults hasDB now
        (reconcile noFaults hasDB now m cluster rows).mirror
        (reconcile noFaults hasDB now m cluster rows).cluster
        (reconcile noFaults hasDB now m cluster rows).rows =
      reconcile noFaults hasDB now m cluster rows := by
  have hred : reconcile noFaults hasDB now m cluster rows =
      reconcileActive noFaults hasDB now m cluster rows := by
    simp only [reconcile, hact, hfin, if_true]
  rw [hred]
  obtain ⟨hname, hnspace, hgen, hdts, hfins, hspec⟩ :=
    reconcileActive_mirror_meta noFaults hasDB now m cluster rows
  have hred2 : reconcile noFaults hasDB now
      (reconcileActive noFaults hasDB now m cluster rows).mirror
      (reconcileActive noFaults hasDB now m cluster rows).cluster
      (reconcileActive noFaults hasDB now m cluster rows).rows =
      reconcileActive noFaults hasDB now
        (reconcileActive noFaults hasDB now m cluster rows).mirror
        (reconcileActive noFaults hasDB now m cluster rows).cluster
        (reconcileActive noFaults hasDB now m cluster rows).rows := by
    simp only [reconcile, hdts, hact, hfins, hfin, if_true]
  rw [hred2]
  cases hsel : labelSelectorAsSelector m.spec.selector with
  | error e =>
    simp only [reconcileActive, hsel, updateStatus,
      show noFaults.statusWriteFail = false from rfl, Bool.false_eq_true, if_false]
    simp only [hsel, setStatusCondition_stable]
  | ok sel =>
    have hts : ∀ t ∈ m.spec.targetNamespaces, t ≠ m.nspace :=
      fun t ht hc => hL (hc ▸ ht)
    have hselM : labelSelectorAsSelector
        (reconcileActive noFaults hasDB now m cluster rows).mirror.spec.selector =
        .ok sel := by rw [hspec]; exact hsel
    have hwfC : WellFormed (reconcileActive noFaults hasDB now m cluster rows).cluster :=
      reconcileActive_WF noFaults hasDB now m cluster rows hwf
    have hlist : listCMs (reconcileActive noFaults hasDB now m cluster rows).cluster
        (reconcileActive noFaults hasDB now m cluster rows).mirror.nspace sel =
        listCMs cluster m.nspace sel := by
      rw [hnspace]
      exact reconcileActive_listCMs hasDB now m cluster rows sel hsel hts
    have hdbeq : dbEnabled hasDB
        (reconcileActive noFaults hasDB now m cluster rows).mirror =
        dbEnabled hasDB m := by
      simp only [dbEnabled, hspec]
    have hol : ownerLabelValue (reconcileActive noFaults hasDB now m cluster rows).mirror =
        ownerLabelValue m := by
      simp only [ownerLabelValue, hnspace, hname]
    rw [reconcileActive_fixpoint hasDB now _ _ _ sel hselM hwfC
      (by
        intro s hs t ht
        rw [hlist] at hs
        rw [hspec] at ht
        rw [hol]
        exact reconcileActive_normalizes hasDB now m cluster rows sel hsel hwf s hs t ht)
      (by
        intro hdb s hs
        rw [hlist] at hs
        rw [hname, hnspace]
        exact reconcileActive_rows_normalized hasDB now m cluster rows sel hsel hwf
          (hdbeq ▸ hdb) s hs)
      (by
        rw [hlist,
          reconcileActive_replicated noFaults hasDB now m cluster rows sel hsel rfl]
        refine List.map_congr_left ?_
        intro s hs
        simp only [entryFor, hspec])
      (by
        rw [hgen]
        exact reconcileActive_obsGen noFaults hasDB now m cluster rows sel hsel rfl)
      (fun hdb =>
        reconcileActive_dbStatus hasDB now m cluster rows sel hsel (hdbeq ▸ hdb))
      (by
        rw [hgen,
          reconcileActive_conditions noFaults hasDB now m cluster rows sel hsel rfl]
        exact setStatusCondition_stable m.status.conditions _)]
    rw [← reconcileActive_persisted_noFaults hasDB now m cluster rows,
      ← reconcileActive_result_ok noFaults hasDB now m cluster rows sel hsel rfl]

theorem C5_second_pass_noop_witness :
    WellFormed [srcC2] ∧ mirC2.nspace ∉ mirC2.spec.targetNamespaces ∧
    mirC2.deletionTimestampZero = true ∧
    mirC2.finalizers.contains finalizerName = true ∧
    reconcile noFaults true 7
        (reconcile noFaults true 7 mirC2 [srcC2] []).mirror
        (reconcile noFaults true 7 mirC2 [srcC2] []).cluster
        (reconcile noFaults true 7 mirC2 [srcC2] []).rows =
      reconcile noFaults true 7 mirC2 [srcC2] [] :=
  ⟨by decide, by decide, by decide, by decide,
    C5_second_pass_noop true 7 mirC2 [srcC2] [] (by decide) (by decide)
      (by decide) (by decide)⟩

end ConfigMirrorOp
